import Mathlib

/-!
Verification of the request-orchestration core of the `embers` 3-D point
cloud generation server, as a shallow embedding in Lean 4.

The embedding follows the Python source:
* `server/app/pipeline/point_sampler.py`   → namespace `PointSampler`
* `server/app/cache/shape_cache.py`        → namespaces `CacheKey`, `Coalesce`
* `server/app/pipeline/mask_to_faces.py`   → namespace `MaskToFaces`
* `server/app/services/metrics.py`         → namespace `Metrics`
* `server/app/services/pipeline.py`        → namespace `Orchestrator`

Machine floats are modelled by exact rationals (`ℚ`), numpy arrays by
lists, and Python dictionaries by association lists.  External
collaborators (trimesh surface sampling, the NLTK lemmatizer, the
SHA-256 digest, the Cloud Storage blob store and the ML models) are
abstracted as parameters; everything the claims quantify over is
translated from the source.
-/

namespace PointSampler

/-- A 3-D point with exact rational coordinates (models one row of an
`(N, 3)` float array). -/
def Vec3 : Type := Fin 3 → ℚ

instance : DecidableEq Vec3 := fun a b => by
  unfold Vec3 at a b; exact inferInstanceAs (Decidable (a = b))

instance : Inhabited Vec3 := ⟨fun _ => 0⟩

/-- Componentwise subtraction of two points. -/
def vsub (a b : Vec3) : Vec3 := fun i => a i - b i

/-- Componentwise scaling of a point. -/
def vscale (k : ℚ) (a : Vec3) : Vec3 := fun i => k * a i

/-- Componentwise sum of a list of points (`positions.sum(axis=0)`). -/
def vsum (ps : List Vec3) : Vec3 :=
  ps.foldr (fun p acc => fun i => p i + acc i) (fun _ => 0)

/-- `positions.mean(axis=0)`: the componentwise centroid. -/
def centroid (ps : List Vec3) : Vec3 :=
  vscale (1 / (ps.length : ℚ)) (vsum ps)

/-- All coordinates occurring in a point list, flattened. -/
def coordsList (ps : List Vec3) : List ℚ :=
  ps.flatMap (fun p => (List.finRange 3).map p)

/-- `np.abs(arr).max()` over a flattened coordinate list (`0` for the
empty list, which numpy would reject). -/
def maxAbs (ps : List Vec3) : ℚ :=
  (coordsList ps).foldr (fun x acc => max |x| acc) 0

/-- Squared Euclidean distance between two points. -/
def sqDist (a b : Vec3) : ℚ :=
  ((List.finRange 3).map (fun i => (a i - b i) ^ 2)).sum

/-- Shallow embedding of `normalize_positions` from
`server/app/pipeline/point_sampler.py`: subtract the centroid, then, when
the largest absolute coordinate is positive, divide every coordinate by
it.  The bounding-box dictionary the Python function also returns is not
needed by any claim and is omitted. -/
def normalize_positions (ps : List Vec3) : List Vec3 :=
  let c := centroid ps
  let centered := ps.map (fun p => vsub p c)
  let max_extent := maxAbs centered
  if 0 < max_extent then centered.map (fun p => vscale (1 / max_extent) p)
  else centered

/-- Python `int(...)` conversion of a float: truncation toward zero
(`(fractions * total_points).astype(int)`). -/
def pyInt (q : ℚ) : ℤ := if 0 ≤ q then ⌊q⌋ else ⌈q⌉

/-- `np.argmax`: index of the first occurrence of the maximum value
(`int(np.argmax(areas))`). -/
def argmaxIdx (l : List ℚ) : ℕ := l.indexOf (l.max?.getD 0)

/-- Increment the last entry of a list (`points_per_part[-1] += ...`). -/
def bumpLast (l : List ℕ) (d : ℕ) : List ℕ :=
  match l with
  | [] => []
  | [x] => [x + d]
  | x :: y :: t => x :: bumpLast (y :: t) d

/-- The `total_area <= 0` branch of `sample_from_part_meshes`: distribute
`total_points // n` to every part and add the remainder to the last part. -/
def allocate_zero (n total : ℕ) : List ℕ :=
  bumpLast (List.replicate n (total / n)) (total - n * (total / n))

/-- The positive-area branch of `sample_from_part_meshes`: proportional
allocation (at least 1 point per part), with the rounding difference
added to — or, clamped at 1, removed from — the largest-area part. -/
def allocate_pos (areas : List ℚ) (total : ℕ) : List ℤ :=
  let total_area := areas.sum
  let pts := areas.map (fun a => max (pyInt (a / total_area * total)) 1)
  let diff : ℤ := (total : ℤ) - pts.sum
  let largest_idx := argmaxIdx areas
  if 0 < diff then pts.set largest_idx (pts.getD largest_idx 0 + diff)
  else if diff < 0 then pts.set largest_idx (max 1 (pts.getD largest_idx 0 + diff))
  else pts

/-- Per-part point allocation of `sample_from_part_meshes`
(`server/app/pipeline/point_sampler.py`). -/
def allocate_points (areas : List ℚ) (total : ℕ) : List ℤ :=
  if areas.sum ≤ 0 then (allocate_zero areas.length total).map Int.ofNat
  else allocate_pos areas total

/-- Shallow embedding of `sample_from_part_meshes`: a part mesh is
abstracted by its surface area (`mesh.area`); `trimesh.sample.sample_surface`
is an external collaborator that returns exactly the requested number of
points, so the result is determined by the allocation.  Returns the
`part_ids` array (index `i` repeated once per point sampled from mesh `i`;
parts allocated `n_points <= 0` are skipped). -/
def sample_from_part_meshes (areas : List ℚ) (total_points : ℕ) :
    Except String (List ℕ) :=
  if areas = [] then .error "part_meshes must not be empty"
  else .ok (((allocate_points areas total_points).enum).flatMap
    (fun pr => List.replicate pr.2.toNat pr.1))

end PointSampler

-- ═════════════════════════════════════════════════════════════════════════
-- Cache key normalization (`ShapeCache.normalize_key`,
-- `server/app/cache/shape_cache.py`).  Strings are handled as ASCII
-- character lists; the WordNet lemmatizer is an external collaborator and
-- is passed in as a function.
-- ═════════════════════════════════════════════════════════════════════════

namespace CacheKey

/-- Python `str.strip()`: drop leading and trailing whitespace. -/
def stripChars (l : List Char) : List Char :=
  ((l.dropWhile Char.isWhitespace).reverse.dropWhile Char.isWhitespace).reverse

/-- A regex `\w` character: alphanumeric or underscore. -/
def isWordChar (c : Char) : Bool := c.isAlphanum || c == '_'

/-- The fixed stop-word set stripped during normalization (`_ARTICLES`). -/
def articles : List String := ["a", "an", "the"]

/-- Shallow embedding of `ShapeCache.normalize_key`:
`text.lower().strip()`, then `re.sub(r"[^\w\s]", "", text)` (drop every
character that is neither a word character nor whitespace), split on
whitespace, drop articles, lemmatize each remaining token, and rejoin
with single spaces; if no tokens remain, return the (lowercased,
stripped, punctuation-stripped) intermediate text. -/
def normalize_key (lem : String → String) (text : String) : String :=
  let t1 := stripChars (text.toList.map Char.toLower)
  let t2 := t1.filter (fun c => isWordChar c || c.isWhitespace)
  let words := (List.splitOnP Char.isWhitespace t2).filter (fun w => w ≠ [])
  let words := (words.map (fun w => String.mk w)).filter (fun w => w ∉ articles)
  let words := words.map lem
  if words ≠ [] then String.intercalate " " words else String.mk t2

end CacheKey

-- ═════════════════════════════════════════════════════════════════════════
-- Mask-to-face mapping (`map_masks_to_faces`,
-- `server/app/pipeline/mask_to_faces.py`).  Pixel arrays are flattened to
-- lists; `sorted(...)` (a stable sort by mask area) is modelled by a
-- stable insertion sort by the same key, and the scipy `KDTree.query`
-- nearest-neighbour lookup by a first-minimum `argmin` over exact squared
-- distances (the Euclidean comparison `dist < 0.3` is equivalent to
-- `dist² < 0.09`).
-- ═════════════════════════════════════════════════════════════════════════

namespace MaskToFaces

open PointSampler (Vec3 sqDist)

/-- One `(part_name, mask, face_id_map)` triple annotated with the mask's
pixel area, as collected in `all_mask_entries`. -/
structure MaskEntry where
  part : String
  mask : List Bool
  faceIds : List Int
deriving DecidableEq

/-- `int(mask.sum())`: the mask's pixel area. -/
def MaskEntry.area (e : MaskEntry) : ℕ := e.mask.count true

/-- `face_indices = np.unique(face_id_map[mask][face_id_map[mask] >= 0])`:
the deduplicated, ascending face indices visible under the mask. -/
def coveredFaces (e : MaskEntry) : List ℕ :=
  List.insertionSort (· ≤ ·)
    ((((e.faceIds.zip e.mask).filterMap
        (fun pr => if pr.2 then some pr.1 else none)).filter
      (fun v => 0 ≤ v)).map Int.toNat).dedup

/-- Flatten all `(part, mask, face_id_map)` triples across all views
(each view is a part-name→mask association list plus a face-index map). -/
def flattenEntries (views : List (List (String × List Bool) × List Int)) :
    List MaskEntry :=
  views.flatMap (fun v => v.1.map (fun pm => ⟨pm.1, pm.2, v.2⟩))

/-- Distinct part names in first-seen order (the insertion order of the
`part_to_idx` dictionary). -/
def firstSeen (l : List String) : List String :=
  l.foldl (fun acc p => if p ∈ acc then acc else acc ++ [p]) []

/-- The mutable loop state: per-face labels (`face_labels`, `-1` means
unlabeled) and the per-face winning mask area (`face_mask_area`,
initialized to `np.inf`, modelled by `⊤`). -/
structure LoopSt where
  labels : ℕ → ℤ
  areas : ℕ → WithTop ℕ

/-- One step of the inner loop of the conflict-resolution pass:
overwrite face `f`'s label exactly when this mask's area is strictly
smaller than the face's current winning area. -/
def entryStep (numFaces pidx a : ℕ) (st : LoopSt) (f : ℕ) : LoopSt :=
  if f < numFaces ∧ (a : WithTop ℕ) < st.areas f then
    { labels := Function.update st.labels f ((pidx : ℤ)),
      areas := Function.update st.areas f ((a : WithTop ℕ)) }
  else st

/-- The inner loop of the conflict-resolution pass over the faces
visible under one mask. -/
def applyEntry (numFaces : ℕ) (p2i : String → ℕ) (st : LoopSt) (e : MaskEntry) :
    LoopSt :=
  (coveredFaces e).foldl (entryStep numFaces (p2i e.part) e.area) st

/-- The per-face view of the conflict-resolution pass: the final
`(label, winning area)` of one face is a fold of this step over the
entries covering it, in processing order. -/
def faceStep (p2i : String → ℕ) (pr : ℤ × WithTop ℕ) (e : MaskEntry) :
    ℤ × WithTop ℕ :=
  if (e.area : WithTop ℕ) < pr.2 then (((p2i e.part : ℕ) : ℤ), (e.area : WithTop ℕ))
  else pr

/-- The conflict-resolution pass over the area-sorted entry list. -/
def runEntries (numFaces : ℕ) (p2i : String → ℕ) (entries : List MaskEntry) :
    LoopSt :=
  entries.foldl (applyEntry numFaces p2i) ⟨fun _ => -1, fun _ => ⊤⟩

/-- `_SYMMETRIC_SUFFIXES`. -/
def symSuffixPairs : List (String × String) :=
  [("_left_", "_right_"), ("left_", "right_"), ("_left", "_right")]

/-- Python's `pat in s` substring test. -/
def strContains (s pat : String) : Bool := (s.splitOn pat).length > 1

/-- `_find_symmetric_pair`: the symmetric counterpart of a part name. -/
def findSymPair (name : String) (allNames : List String) : Option String :=
  symSuffixPairs.findSome? (fun pr =>
    if strContains name pr.1 then
      let pair := name.replace pr.1 pr.2
      if pair ∈ allNames then some pair else none
    else if strContains name pr.2 then
      let pair := name.replace pr.2 pr.1
      if pair ∈ allNames then some pair else none
    else none)

/-- Reflect a centroid across the X axis (`source_centroids[:, 0] *= -1`). -/
def reflectX (v : Vec3) : Vec3 := fun i => if i = 0 then -(v i) else v i

/-- Index of the first minimum of a rational list (`KDTree.query` nearest
neighbour). -/
def argminIdx (l : List ℚ) : ℕ := l.indexOf (l.min?.getD 0)

/-- One iteration of the `_clone_via_reflection` loop: find the
still-unlabeled face nearest to the reflected source centroid and, if
within Euclidean distance `0.3` (squared distance `< 9/100`), assign it
the target label. -/
def cloneStep (centroids : List Vec3) (unlabeledIdx : List ℕ) (tgtIdx : ℕ)
    (lab : ℕ → ℤ) (sf : ℕ) : ℕ → ℤ :=
  if (unlabeledIdx.map (fun u => sqDist (reflectX (centroids.getD sf default))
        (centroids.getD u default))).getD
      (argminIdx (unlabeledIdx.map (fun u =>
        sqDist (reflectX (centroids.getD sf default))
          (centroids.getD u default)))) 0 < 9 / 100 then
    Function.update lab
      (unlabeledIdx.getD
        (argminIdx (unlabeledIdx.map (fun u =>
          sqDist (reflectX (centroids.getD sf default))
            (centroids.getD u default)))) 0) ((tgtIdx : ℤ))
  else lab

/-- `_clone_via_reflection`: copy the source part's label to the nearest
still-unlabeled face of each reflected source centroid. -/
def cloneViaReflection (labels : ℕ → ℤ) (centroids : List Vec3)
    (srcIdx tgtIdx numFaces : ℕ) : ℕ → ℤ :=
  if (List.range numFaces).filter (fun f => labels f = (srcIdx : ℤ)) = [] then labels
  else
    if (List.range numFaces).filter (fun f => labels f = -1) = [] then labels
    else
      ((List.range numFaces).filter (fun f => labels f = (srcIdx : ℤ))).foldl
        (cloneStep centroids
          ((List.range numFaces).filter (fun f => labels f = -1)) tgtIdx)
        labels

/-- The number of faces currently carrying a given part index. -/
def countLabel (numFaces : ℕ) (labels : ℕ → ℤ) (idx : ℕ) : ℕ :=
  ((List.range numFaces).filter (fun f => labels f = ((idx : ℕ) : ℤ))).length

/-- One iteration of the `_apply_symmetric_heuristic` loop over part
names. -/
def symStep (centroids : List Vec3) (numFaces : ℕ) (seen : List String)
    (p2i : String → ℕ) (partNames : List String)
    (st : List String × (ℕ → ℤ)) (name : String) : List String × (ℕ → ℤ) :=
  if name ∈ st.1 ∨ name ∉ seen then st
  else
    match findSymPair name partNames with
    | none => st
    | some pair =>
      if pair ∉ seen then st
      else
        if 0 < countLabel numFaces st.2 (p2i name) ∧
            countLabel numFaces st.2 (p2i pair) = 0 then
          (pair :: name :: st.1,
           cloneViaReflection st.2 centroids (p2i name) (p2i pair) numFaces)
        else if 0 < countLabel numFaces st.2 (p2i pair) ∧
            countLabel numFaces st.2 (p2i name) = 0 then
          (pair :: name :: st.1,
           cloneViaReflection st.2 centroids (p2i pair) (p2i name) numFaces)
        else (pair :: name :: st.1, st.2)

/-- `_apply_symmetric_heuristic`: for each left/right part-name pair where
exactly one side has labeled faces, clone that side's labels across the X
axis. -/
def applySymmetric (centroids : List Vec3) (numFaces : ℕ) (seen : List String)
    (p2i : String → ℕ) (partNames : List String) (labels0 : ℕ → ℤ) : ℕ → ℤ :=
  (partNames.foldl (symStep centroids numFaces seen p2i partNames)
    (([] : List String), labels0)).2

/-- The final fill pass: nearest-neighbour fill of unlabeled faces from
labeled face centroids; if every face is unlabeled, set all to `0`. -/
def fillUnlabeled (centroids : List Vec3) (numFaces : ℕ) (labels : ℕ → ℤ) :
    ℕ → ℤ :=
  let unl := (List.range numFaces).filter (fun f => labels f = -1)
  let labd := (List.range numFaces).filter (fun f => labels f ≠ -1)
  if unl ≠ [] ∧ labd ≠ [] then
    fun f =>
      if labels f = -1 then
        labels (labd.getD
          (argminIdx (labd.map (fun g =>
            sqDist (centroids.getD f default) (centroids.getD g default)))) 0)
      else labels f
  else if unl.length = numFaces then fun _ => 0
  else labels

/-- Shallow embedding of `map_masks_to_faces`
(`server/app/pipeline/mask_to_faces.py`). -/
def map_masks_to_faces (views : List (List (String × List Bool) × List Int))
    (centroids : List Vec3) (partNames : Option (List String)) : List ℤ :=
  let numFaces := centroids.length
  let entries := flattenEntries views
  if entries = [] then List.replicate numFaces 0
  else
    let seen := firstSeen (entries.map (fun e => e.part))
    let p2i : String → ℕ := fun s => seen.indexOf s
    let sortedEntries := List.insertionSort (fun a b => a.area ≤ b.area) entries
    let st := runEntries numFaces p2i sortedEntries
    let labels1 :=
      match partNames with
      | some pns =>
        if pns ≠ [] then applySymmetric centroids numFaces seen p2i pns st.labels
        else st.labels
      | none => st.labels
    let labels2 := fillUnlabeled centroids numFaces labels1
    (List.range numFaces).map labels2

end MaskToFaces

-- ═════════════════════════════════════════════════════════════════════════
-- Rolling GPU-generation metrics (`PipelineMetrics`,
-- `server/app/services/metrics.py`).  The timestamp deque is a list in
-- append order (oldest first); `time.time()` is the parameter `now`.
-- ═════════════════════════════════════════════════════════════════════════

namespace Metrics

/-- `recent_generations_per_minute`: walk the timestamp deque newest-first
and count entries until the first one older than `now - 60`. -/
def recent_generations_per_minute (tsList : List ℚ) (now : ℚ) : ℕ :=
  (tsList.reverse.takeWhile (fun t => now - 60 ≤ t)).length

/-- `oldest_generation_retry_after`: seconds until the oldest in-window
generation timestamp expires (at least 1); `5.0` when no timestamp is in
the window. -/
def oldest_generation_retry_after (tsList : List ℚ) (now : ℚ) : ℚ :=
  match tsList with
  | [] => 5
  | _ :: _ =>
    match tsList.find? (fun t => now - 60 ≤ t) with
    | some ts => max 1 (60 - (now - ts))
    | none => 5

end Metrics

-- ═════════════════════════════════════════════════════════════════════════
-- The pipeline orchestrator (`PipelineOrchestrator._generate_traced` and
-- `PipelineOrchestrator._generate_sync`, `server/app/services/pipeline.py`).
-- The ML model collaborators are abstracted by their outcomes; positions
-- and part ids produced by the samplers are carried as opaque payloads
-- (they are verified separately above).  Wall-clock readings are
-- parameters.
-- ═════════════════════════════════════════════════════════════════════════

namespace Orchestrator

/-- `TemplateInfo` (`server/app/pipeline/template_matcher.py`). -/
structure TemplateInfo where
  template_type : String
  part_names : List String
deriving DecidableEq

/-- `TemplateInfo.num_parts`. -/
def TemplateInfo.num_parts (t : TemplateInfo) : ℕ := t.part_names.length

/-- `GenerateResponse` (`server/app/schemas.py`): `positions` and
`part_ids` are base64-encoded payload strings. -/
structure GenerateResponse where
  positions : String
  part_ids : String
  part_names : List String
  template_type : String
  bbox_min : PointSampler.Vec3
  bbox_max : PointSampler.Vec3
  cached : Bool
  generation_time_ms : ℤ
  pipeline : String
deriving DecidableEq

/-- Classification of a Python exception escaping a model call: either a
`torch.cuda.OutOfMemoryError` or any other exception. -/
inductive ExcKind where
  | oom
  | generic
deriving DecidableEq

/-- A part mesh as seen by the orchestrator's validity check
(`len(m.vertices) > 1`). -/
structure Mesh where
  numVertices : ℕ
deriving DecidableEq

deriving instance DecidableEq for Except

/-- Outcomes of the model collaborators used by `_generate_sync`:
presence flags model `registry.has(...)`, and each `generate` call either
returns or raises. -/
structure SyncEnv where
  hasSdxl : Bool
  sdxlResult : Except ExcKind Unit
  hasPartcrafter : Bool
  partcrafterResult : Except ExcKind (List Mesh)
  fallbackResult : Except ExcKind Unit
deriving DecidableEq

/-- The `real_count < max(template.num_parts * 0.5, 1)` threshold of
`_generate_sync` — in the source it only gates a warning log. -/
def halfThreshold (numParts : ℕ) : ℚ := max ((numParts : ℚ) * (1 / 2)) 1

/-- The fallback block of `_generate_sync` (the `try:` starting at the
`reference_image is not None` guard): on success the pipeline tag is
`"hunyuan3d_grounded_sam"`; a CUDA OOM is re-raised; every other
exception is logged and control falls through to the procedural mock,
which reports the pipeline tag accumulated so far (`pu`). -/
def runFallback (env : SyncEnv) (template : TemplateInfo) (pu : String) :
    Except ExcKind (List String × String) :=
  match env.fallbackResult with
  | .ok _ => .ok (template.part_names, "hunyuan3d_grounded_sam")
  | .error .oom => .error .oom
  | .error .generic => .ok (template.part_names, pu)

/-- Shallow embedding of `PipelineOrchestrator._generate_sync`, returning
`(part_names, pipeline_used)`.  The primary attempt is used whenever at
least one decoded part mesh has more than one vertex (`valid_meshes`);
the `halfThreshold` comparison only logs a warning.  Without a reference
image both the primary mesh step and the fallback are skipped and the
procedural mock runs. -/
def generateSync (env : SyncEnv) (template : TemplateInfo) :
    Except ExcKind (List String × String) :=
  if env.hasSdxl then
    match env.sdxlResult with
    | .error k => .error k
    | .ok _ =>
      let pu := "sdxl_turbo+mock"
      if env.hasPartcrafter then
        match env.partcrafterResult with
        | .error k => .error k
        | .ok part_meshes =>
          let valid_meshes := part_meshes.filter (fun m => 1 < m.numVertices)
          if valid_meshes.isEmpty then runFallback env template pu
          else .ok (template.part_names.take valid_meshes.length, "partcrafter")
      else runFallback env template pu
  else .ok (template.part_names, "mock")

/-- The error kinds `generate()` can surface
(`server/app/exceptions.py`): `GenerationRateLimitError`,
`GenerationTimeoutError`, `GPUOutOfMemoryError`, `GenerationFailedError`. -/
inductive GenError where
  | rateLimited (limit : ℕ) (retryAfter : ℚ)
  | timeout
  | oom
  | generationFailed
deriving DecidableEq

/-- Externally observable side effects of `_generate_traced`, in order. -/
inductive Eff where
  | cacheLookup
  | templateResolve
  | modelInvoke
  | cacheWrite
deriving DecidableEq

/-- The environment of one `_generate_traced` call: the cache lookup
outcome, metrics state, the overall `asyncio.wait_for` deadline outcome,
the model outcomes, and the encoded payloads produced by the samplers. -/
structure TracedEnv where
  cacheHit : Option GenerateResponse
  lookupMs : ℤ
  metricsOn : Bool
  genLimit : ℕ
  timestamps : List ℚ
  now : ℚ
  syncTimedOut : Bool
  syncEnv : SyncEnv
  elapsedMs : ℤ
  encPositions : String
  encPartIds : String
  bboxMin : PointSampler.Vec3
  bboxMax : PointSampler.Vec3

/-- Shallow embedding of `PipelineOrchestrator._generate_traced`,
returning the result (or classified error) together with the ordered
effect trace.  On a cache hit the stored response is returned with only
`cached` and `generation_time_ms` mutated.  On a miss, the GPU
rate-limit gate runs before the template is resolved and before any
model is invoked; then the sync pipeline runs under the overall timeout,
whose exceptions are classified as timeout / OOM / generic
generation-failure. -/
def generateTraced (env : TracedEnv) (template : TemplateInfo) :
    Except GenError GenerateResponse × List Eff :=
  match env.cacheHit with
  | some stored =>
    (.ok { stored with cached := true, generation_time_ms := env.lookupMs },
     [.cacheLookup])
  | none =>
    if env.metricsOn ∧
        env.genLimit ≤ Metrics.recent_generations_per_minute env.timestamps env.now then
      (.error (.rateLimited env.genLimit
        (Metrics.oldest_generation_retry_after env.timestamps env.now)),
       [.cacheLookup])
    else
      if env.syncTimedOut then
        (.error .timeout, [.cacheLookup, .templateResolve, .modelInvoke])
      else
        match generateSync env.syncEnv template with
        | .error .oom =>
          (.error .oom, [.cacheLookup, .templateResolve, .modelInvoke])
        | .error .generic =>
          (.error .generationFailed, [.cacheLookup, .templateResolve, .modelInvoke])
        | .ok pr =>
          (.ok { positions := env.encPositions
                 part_ids := env.encPartIds
                 part_names := pr.1
                 template_type := template.template_type
                 bbox_min := env.bboxMin
                 bbox_max := env.bboxMax
                 cached := false
                 generation_time_ms := env.elapsedMs
                 pipeline := pr.2 },
           [.cacheLookup, .templateResolve, .modelInvoke, .cacheWrite])

/-- The in-memory cache tier keyed by truncated digests: `set` writes
`self._memory[key] = response` (most recent first models the LRU's
recency order), `get` is the lock-guarded memory lookup.  The digest
function (`_hash_key`, a truncated SHA-256) is an external collaborator
passed as `hkey`. -/
def memSet (mem : List (String × GenerateResponse)) (k : String)
    (r : GenerateResponse) : List (String × GenerateResponse) :=
  (k, r) :: mem.filter (fun pr => pr.1 ≠ k)

/-- Memory-tier lookup. -/
def memGet (mem : List (String × GenerateResponse)) (k : String) :
    Option GenerateResponse :=
  (mem.find? (fun pr => pr.1 == k)).map Prod.snd

/-- The cache key of a raw text: truncated digest of the normalized text
(`_hash_key(normalize_key(text))`). -/
def cacheKeyOf (lem : String → String) (hkey : String → String)
    (text : String) : String :=
  hkey (CacheKey.normalize_key lem text)

end Orchestrator

-- ═════════════════════════════════════════════════════════════════════════
-- Request coalescing in `ShapeCache.get`
-- (`server/app/cache/shape_cache.py`, lines 128-190), modelled as a
-- transition system over the interleavings of two concurrent `get()`
-- calls for the same uncached key with a durable backend configured.
-- Each atomic step is a synchronous region between `await` points of the
-- source; the durable read's outcome (hit / miss / raised exception) is
-- nondeterministic.  An exception raised by the read step follows the
-- same `finally` path as a miss, so the two are merged.
-- ═════════════════════════════════════════════════════════════════════════

namespace Coalesce

/-- Program counter of one `get()` call:
`start` — about to take the memory-tier lock and check memory;
`regCheck` — memory missed, about to check/insert the in-flight entry;
`waiting` — a waiter blocked on `event.wait()`;
`recheck` — the waiter woke and re-checks memory (then returns);
`reading` — the resolver's durable read is outstanding;
`promote` — the read hit, about to publish into memory;
`fin1` — in `finally`: about to `event.set()`;
`fin2` — in `finally`: about to pop the in-flight entry;
`doneR` / `doneW` / `doneF` — returned (as resolver / as waiter / fast
memory hit at `start`). -/
inductive PC where
  | start
  | regCheck
  | waiting
  | recheck
  | reading
  | promote
  | fin1
  | fin2
  | doneR
  | doneW
  | doneF
deriving DecidableEq

/-- A configuration: both program counters, the shared memory-tier
occupancy for the key, the completion event, the in-flight registry
entry, and per-task counters of completed durable-store reads. -/
structure Cfg where
  pc1 : PC
  pc2 : PC
  mem : Bool
  ev : Bool
  infl : Bool
  r1 : Bool
  r2 : Bool
deriving DecidableEq

/-- Successor configurations contributed by one task (`me` selects which
program counter and read counter belong to it). -/
def taskSteps (me : Bool) (c : Cfg) : List Cfg :=
  let pc := if me then c.pc1 else c.pc2
  let setPc := fun (c' : Cfg) (p : PC) =>
    if me then { c' with pc1 := p } else { c' with pc2 := p }
  let setRead := fun (c' : Cfg) => if me then { c' with r1 := true } else { c' with r2 := true }
  match pc with
  | .start => if c.mem then [setPc c .doneF] else [setPc c .regCheck]
  | .regCheck =>
    if c.infl then [setPc c .waiting]
    else [setPc { c with infl := true } .reading]
  | .waiting => if c.ev then [setPc c .recheck] else []
  | .recheck => [setPc c .doneW]
  | .reading =>
    [setRead (setPc c .promote),
     setRead (setPc c .fin1)]
  | .promote => [setPc { c with mem := true } .fin1]
  | .fin1 => [setPc { c with ev := true } .fin2]
  | .fin2 => [setPc { c with infl := false } .doneR]
  | .doneR | .doneW | .doneF => []

/-- All successor configurations under interleaving of the two tasks. -/
def nextsAll (c : Cfg) : List Cfg := taskSteps true c ++ taskSteps false c

/-- The initial configuration of the coalescing scenario: both calls
start concurrently on the same key, the key is uncached in memory, no
resolution is in flight. -/
def init : Cfg :=
  { pc1 := .start, pc2 := .start, mem := false, ev := false, infl := false,
    r1 := false, r2 := false }


set_option maxHeartbeats 1000000 in
/-- The (mechanically computed) set of configurations reachable from
`init`; closure and coverage are proved below. -/
def reachSet : List Cfg := [
  ⟨.start, .start, false, false, false, false, false⟩,
  ⟨.regCheck, .start, false, false, false, false, false⟩,
  ⟨.start, .regCheck, false, false, false, false, false⟩,
  ⟨.reading, .start, false, false, true, false, false⟩,
  ⟨.regCheck, .regCheck, false, false, false, false, false⟩,
  ⟨.start, .reading, false, false, true, false, false⟩,
  ⟨.promote, .start, false, false, true, true, false⟩,
  ⟨.fin1, .start, false, false, true, true, false⟩,
  ⟨.reading, .regCheck, false, false, true, false, false⟩,
  ⟨.regCheck, .reading, false, false, true, false, false⟩,
  ⟨.start, .promote, false, false, true, false, true⟩,
  ⟨.start, .fin1, false, false, true, false, true⟩,
  ⟨.fin1, .start, true, false, true, true, false⟩,
  ⟨.fin2, .start, false, true, true, true, false⟩,
  ⟨.promote, .regCheck, false, false, true, true, false⟩,
  ⟨.fin1, .regCheck, false, false, true, true, false⟩,
  ⟨.reading, .waiting, false, false, true, false, false⟩,
  ⟨.waiting, .reading, false, false, true, false, false⟩,
  ⟨.regCheck, .promote, false, false, true, false, true⟩,
  ⟨.start, .fin1, true, false, true, false, true⟩,
  ⟨.regCheck, .fin1, false, false, true, false, true⟩,
  ⟨.start, .fin2, false, true, true, false, true⟩,
  ⟨.fin2, .start, true, true, true, true, false⟩,
  ⟨.fin1, .doneF, true, false, true, true, false⟩,
  ⟨.doneR, .start, false, true, false, true, false⟩,
  ⟨.fin1, .regCheck, true, false, true, true, false⟩,
  ⟨.fin2, .regCheck, false, true, true, true, false⟩,
  ⟨.promote, .waiting, false, false, true, true, false⟩,
  ⟨.fin1, .waiting, false, false, true, true, false⟩,
  ⟨.waiting, .promote, false, false, true, false, true⟩,
  ⟨.regCheck, .fin1, true, false, true, false, true⟩,
  ⟨.doneF, .fin1, true, false, true, false, true⟩,
  ⟨.start, .fin2, true, true, true, false, true⟩,
  ⟨.waiting, .fin1, false, false, true, false, true⟩,
  ⟨.regCheck, .fin2, false, true, true, false, true⟩,
  ⟨.start, .doneR, false, true, false, false, true⟩,
  ⟨.doneR, .start, true, true, false, true, false⟩,
  ⟨.fin2, .doneF, true, true, true, true, false⟩,
  ⟨.fin2, .regCheck, true, true, true, true, false⟩,
  ⟨.doneR, .regCheck, false, true, false, true, false⟩,
  ⟨.fin1, .waiting, true, false, true, true, false⟩,
  ⟨.fin2, .waiting, false, true, true, true, false⟩,
  ⟨.waiting, .fin1, true, false, true, false, true⟩,
  ⟨.regCheck, .fin2, true, true, true, false, true⟩,
  ⟨.doneF, .fin2, true, true, true, false, true⟩,
  ⟨.start, .doneR, true, true, false, false, true⟩,
  ⟨.waiting, .fin2, false, true, true, false, true⟩,
  ⟨.regCheck, .doneR, false, true, false, false, true⟩,
  ⟨.doneR, .doneF, true, true, false, true, false⟩,
  ⟨.doneR, .regCheck, true, true, false, true, false⟩,
  ⟨.doneR, .reading, false, true, true, true, false⟩,
  ⟨.fin2, .waiting, true, true, true, true, false⟩,
  ⟨.doneR, .waiting, false, true, false, true, false⟩,
  ⟨.fin2, .recheck, false, true, true, true, false⟩,
  ⟨.waiting, .fin2, true, true, true, false, true⟩,
  ⟨.regCheck, .doneR, true, true, false, false, true⟩,
  ⟨.doneF, .doneR, true, true, false, false, true⟩,
  ⟨.recheck, .fin2, false, true, true, false, true⟩,
  ⟨.waiting, .doneR, false, true, false, false, true⟩,
  ⟨.reading, .doneR, false, true, true, false, true⟩,
  ⟨.doneR, .reading, true, true, true, true, false⟩,
  ⟨.doneR, .promote, false, true, true, true, true⟩,
  ⟨.doneR, .fin1, false, true, true, true, true⟩,
  ⟨.doneR, .waiting, true, true, false, true, false⟩,
  ⟨.fin2, .recheck, true, true, true, true, false⟩,
  ⟨.doneR, .recheck, false, true, false, true, false⟩,
  ⟨.fin2, .doneW, false, true, true, true, false⟩,
  ⟨.recheck, .fin2, true, true, true, false, true⟩,
  ⟨.waiting, .doneR, true, true, false, false, true⟩,
  ⟨.reading, .doneR, true, true, true, false, true⟩,
  ⟨.doneW, .fin2, false, true, true, false, true⟩,
  ⟨.recheck, .doneR, false, true, false, false, true⟩,
  ⟨.promote, .doneR, false, true, true, true, true⟩,
  ⟨.fin1, .doneR, false, true, true, true, true⟩,
  ⟨.doneR, .promote, true, true, true, true, true⟩,
  ⟨.doneR, .fin2, false, true, true, true, true⟩,
  ⟨.doneR, .recheck, true, true, false, true, false⟩,
  ⟨.fin2, .doneW, true, true, true, true, false⟩,
  ⟨.doneR, .doneW, false, true, false, true, false⟩,
  ⟨.doneW, .fin2, true, true, true, false, true⟩,
  ⟨.recheck, .doneR, true, true, false, false, true⟩,
  ⟨.promote, .doneR, true, true, true, true, true⟩,
  ⟨.doneW, .doneR, false, true, false, false, true⟩,
  ⟨.fin2, .doneR, false, true, true, true, true⟩,
  ⟨.doneR, .fin1, true, true, true, true, true⟩,
  ⟨.doneR, .doneW, true, true, false, true, false⟩,
  ⟨.doneW, .doneR, true, true, false, false, true⟩,
  ⟨.fin1, .doneR, true, true, true, true, true⟩,
  ⟨.doneR, .doneR, false, true, false, true, true⟩,
  ⟨.doneR, .fin2, true, true, true, true, true⟩,
  ⟨.fin2, .doneR, true, true, true, true, true⟩,
  ⟨.doneR, .doneR, true, true, false, true, true⟩
]

/-- Reachability from the initial configuration. -/
inductive Reach : Cfg → Prop where
  | init : Reach init
  | step {c c' : Cfg} : Reach c → c' ∈ nextsAll c → Reach c'

/-- A call that has returned. -/
def finished (p : PC) : Bool :=
  match p with
  | .doneR | .doneW | .doneF => true
  | _ => false

/-- A call on the waiter path (it found another caller's in-flight entry
and coalesced onto it). -/
def waiterSide (p : PC) : Bool :=
  match p with
  | .waiting | .recheck | .doneW => true
  | _ => false

/-- Number of durable-store reads performed so far. -/
def readsOf (c : Cfg) : ℕ :=
  (if c.r1 then 1 else 0) + (if c.r2 then 1 else 0)

/-- The coalescing correctness property of one configuration (see the
claim C3 theorem, which states it in expanded form). -/
def claimProps (c : Cfg) : Prop :=
  (finished c.pc1 = true → finished c.pc2 = true →
    (c.pc1 = PC.doneW ∨ c.pc2 = PC.doneW) → readsOf c = 1) ∧
  (waiterSide c.pc1 = true → c.r1 = false) ∧
  (waiterSide c.pc2 = true → c.r2 = false) ∧
  (c.pc1 = PC.recheck → c.ev = true) ∧
  (c.pc2 = PC.recheck → c.ev = true) ∧
  (∀ c' ∈ nextsAll c,
    (c.pc1 = PC.fin2 → c'.pc1 = PC.doneR → c'.ev = true ∧ c'.infl = false) ∧
    (c.pc2 = PC.fin2 → c'.pc2 = PC.doneR → c'.ev = true ∧ c'.infl = false))

instance : DecidablePred claimProps := fun c => by
  unfold claimProps
  infer_instance

end Coalesce

-- ═════════════════════════════════════════════════════════════════════════
-- Theorems.
-- ═════════════════════════════════════════════════════════════════════════

namespace Coalesce

theorem reachSet_closed :
    ∀ c ∈ reachSet, ∀ c' ∈ nextsAll c, c' ∈ reachSet := by decide

theorem init_mem_reachSet : init ∈ reachSet := by decide

theorem reach_mem {c : Cfg} (h : Reach c) : c ∈ reachSet := by
  induction h with
  | init => exact init_mem_reachSet
  | step hr hm ih => exact reachSet_closed _ ih _ hm

end Coalesce

namespace PointSampler

theorem vsum_apply (ps : List Vec3) (i : Fin 3) :
    vsum ps i = (ps.map (fun p => p i)).sum := by
  induction ps with
  | nil => rfl
  | cons p t ih => simp [vsum, List.foldr_cons] at ih ⊢; rw [ih]

theorem sum_map_sub_const (l : List Vec3) (g : Vec3 → ℚ) (c : ℚ) :
    (l.map (fun a => g a - c)).sum = (l.map g).sum - l.length * c := by
  induction l with
  | nil => simp
  | cons a t ih => simp [ih]; ring

/-- After centering, every coordinate sums to zero (for nonempty input). -/
theorem vsum_centered (ps : List Vec3) (hne : ps ≠ []) (i : Fin 3) :
    vsum (ps.map (fun p => vsub p (centroid ps))) i = 0 := by
  have hn : (ps.length : ℚ) ≠ 0 := by
    exact_mod_cast (List.length_pos.mpr hne).ne'
  rw [vsum_apply]
  have : (ps.map (fun p => vsub p (centroid ps))).map (fun p => p i)
      = ps.map (fun a => a i - centroid ps i) := by
    simp only [List.map_map]
    exact List.map_congr_left (fun a _ => rfl)
  rw [this, sum_map_sub_const]
  rw [centroid, vscale, vsum_apply]
  field_simp

theorem maxAbs_nonneg (ps : List Vec3) : 0 ≤ maxAbs ps := by
  unfold maxAbs
  induction coordsList ps with
  | nil => simp
  | cons x t ih => simp only [List.foldr_cons]; exact le_trans ih (le_max_right _ _)

theorem foldr_abs_max_le (l : List ℚ) (x : ℚ) (hx : x ∈ l) :
    |x| ≤ l.foldr (fun y acc => max |y| acc) 0 := by
  induction l with
  | nil => cases hx
  | cons a t ih =>
    simp only [List.foldr_cons]
    rcases List.mem_cons.mp hx with h | h
    · subst h; exact le_max_left _ _
    · exact le_trans (ih h) (le_max_right _ _)

theorem abs_coord_le_maxAbs (ps : List Vec3) (p : Vec3) (hp : p ∈ ps) (i : Fin 3) :
    |p i| ≤ maxAbs ps := by
  apply foldr_abs_max_le
  unfold coordsList
  exact List.mem_flatMap.mpr ⟨p, hp, List.mem_map.mpr ⟨i, List.mem_finRange i, rfl⟩⟩

theorem coordsList_scale (k : ℚ) (ps : List Vec3) :
    coordsList (ps.map (fun p => vscale k p)) = (coordsList ps).map (fun x => k * x) := by
  unfold coordsList
  rw [List.flatMap_map, List.map_flatMap]
  have h : ∀ p : Vec3, (List.finRange 3).map (vscale k p)
      = ((List.finRange 3).map p).map (fun x => k * x) := by
    intro p; simp only [List.map_map]; rfl
  simp only [h]

theorem maxAbs_scale (k : ℚ) (hk : 0 ≤ k) (ps : List Vec3) :
    maxAbs (ps.map (fun p => vscale k p)) = k * maxAbs ps := by
  unfold maxAbs
  rw [coordsList_scale]
  induction coordsList ps with
  | nil => simp
  | cons x t ih =>
    simp only [List.map_cons, List.foldr_cons, ih]
    rw [abs_mul, abs_of_nonneg hk, ← mul_max_of_nonneg _ _ hk]

end PointSampler

namespace PointSampler

theorem vsum_scale (k : ℚ) (ps : List Vec3) (i : Fin 3) :
    vsum (ps.map (fun p => vscale k p)) i = k * vsum ps i := by
  rw [vsum_apply, vsum_apply, List.map_map]
  have : (fun p => vscale k p i) ∘ id = fun p : Vec3 => k * p i := rfl
  rw [show ((fun p => p i) ∘ fun p => vscale k p) = fun p : Vec3 => k * p i from rfl]
  exact List.sum_map_mul_left ps (fun p => p i) k

theorem foldr_abs_max_le_of (l : List ℚ) (b : ℚ) (hb : 0 ≤ b)
    (h : ∀ x ∈ l, |x| ≤ b) :
    l.foldr (fun y acc => max |y| acc) 0 ≤ b := by
  induction l with
  | nil => simpa using hb
  | cons a t ih =>
    simp only [List.foldr_cons]
    exact max_le (h a (List.mem_cons_self a t))
      (ih (fun x hx => h x (List.mem_cons_of_mem a hx)))

theorem maxAbs_eq_zero_of_all_zero (ps : List Vec3)
    (h : ∀ p ∈ ps, ∀ i : Fin 3, p i = 0) : maxAbs ps = 0 := by
  refine le_antisymm ?_ (maxAbs_nonneg ps)
  apply foldr_abs_max_le_of _ _ le_rfl
  intro x hx
  unfold coordsList at hx
  obtain ⟨p, hp, hx⟩ := List.mem_flatMap.mp hx
  obtain ⟨i, _, rfl⟩ := List.mem_map.mp hx
  simp [h p hp i]

theorem sum_of_const (l : List ℚ) (a : ℚ) (h : ∀ x ∈ l, x = a) :
    l.sum = l.length * a := by
  induction l with
  | nil => simp
  | cons x t ih =>
    simp only [List.sum_cons, List.length_cons]
    rw [h x (List.mem_cons_self x t), ih (fun y hy => h y (List.mem_cons_of_mem x hy))]
    push_cast
    ring

/-- For a constant point list the centroid is that constant. -/
theorem centroid_of_const (ps : List Vec3) (hne : ps ≠ []) (v : Vec3)
    (h : ∀ p ∈ ps, p = v) (i : Fin 3) : centroid ps i = v i := by
  have hn : (ps.length : ℚ) ≠ 0 := by
    exact_mod_cast (List.length_pos.mpr hne).ne'
  show (1 / (ps.length : ℚ)) * vsum ps i = v i
  rw [vsum_apply, sum_of_const _ (v i)
    (by intro x hx; obtain ⟨p, hp, rfl⟩ := List.mem_map.mp hx; rw [h p hp])]
  rw [List.length_map]
  field_simp

/-- With at least two distinct input points, the centered list has a
strictly positive maximal absolute coordinate. -/
theorem maxAbs_centered_pos (ps : List Vec3)
    (hd : ∃ p ∈ ps, ∃ q ∈ ps, p ≠ q) :
    0 < maxAbs (ps.map (fun p => vsub p (centroid ps))) := by
  obtain ⟨p, hp, q, hq, hpq⟩ := hd
  obtain ⟨i, hi⟩ := Function.ne_iff.mp hpq
  have hne : vsub p (centroid ps) i ≠ 0 ∨ vsub q (centroid ps) i ≠ 0 := by
    by_contra hcon
    push_neg at hcon
    apply hi
    have h1 := hcon.1
    have h2 := hcon.2
    unfold vsub at h1 h2
    linarith [sub_eq_zero.mp h1, sub_eq_zero.mp h2]
  rcases hne with hne | hne
  · have hmem : vsub p (centroid ps) ∈ ps.map (fun r => vsub r (centroid ps)) :=
      List.mem_map_of_mem _ hp
    exact lt_of_lt_of_le (abs_pos.mpr hne) (abs_coord_le_maxAbs _ _ hmem i)
  · have hmem : vsub q (centroid ps) ∈ ps.map (fun r => vsub r (centroid ps)) :=
      List.mem_map_of_mem _ hq
    exact lt_of_lt_of_le (abs_pos.mpr hne) (abs_coord_le_maxAbs _ _ hmem i)

/-- Unfolding of `normalize_positions` with the local `let`s expanded. -/
theorem normalize_positions_eq (ps : List Vec3) :
    normalize_positions ps =
      if 0 < maxAbs (ps.map (fun p => vsub p (centroid ps))) then
        (ps.map (fun p => vsub p (centroid ps))).map
          (fun p => vscale (1 / maxAbs (ps.map (fun q => vsub q (centroid ps)))) p)
      else ps.map (fun p => vsub p (centroid ps)) := rfl

/-- In the two-distinct-points case the centroid of the normalized cloud
is exactly the origin. -/
theorem centroid_normalize_eq_zero (ps : List Vec3) (hne : ps ≠ [])
    (hd : ∃ p ∈ ps, ∃ q ∈ ps, p ≠ q) (i : Fin 3) :
    centroid (normalize_positions ps) i = 0 := by
  have hm := maxAbs_centered_pos ps hd
  rw [normalize_positions_eq, if_pos hm]
  show (1 / ((((ps.map _).map _).length : ℚ))) * vsum _ i = 0
  rw [vsum_scale, vsum_centered ps hne i, mul_zero, mul_zero]

/-- In the two-distinct-points case the largest absolute coordinate of
the normalized cloud is exactly `1`. -/
theorem maxAbs_normalize_eq_one (ps : List Vec3)
    (hd : ∃ p ∈ ps, ∃ q ∈ ps, p ≠ q) :
    maxAbs (normalize_positions ps) = 1 := by
  have hm := maxAbs_centered_pos ps hd
  rw [normalize_positions_eq, if_pos hm]
  rw [maxAbs_scale _ (by positivity) _]
  rw [one_div, inv_mul_cancel₀ (ne_of_gt hm)]

/-- A list of identical points normalizes to all zeros. -/
theorem normalize_const_eq_zero (ps : List Vec3) (hne : ps ≠ [])
    (hall : ∀ p ∈ ps, ∀ q ∈ ps, p = q) :
    ∀ p ∈ normalize_positions ps, ∀ i : Fin 3, p i = 0 := by
  obtain ⟨p₀, hp₀⟩ := List.exists_mem_of_ne_nil ps hne
  have hconst : ∀ r ∈ ps, r = p₀ := fun r hr => hall r hr p₀ hp₀
  have hcent : ∀ r ∈ ps, ∀ i : Fin 3, vsub r (centroid ps) i = 0 := by
    intro r hr i
    unfold vsub
    rw [hconst r hr, centroid_of_const ps hne p₀ hconst i, sub_self]
  have hmemz : ∀ x ∈ ps.map (fun p => vsub p (centroid ps)), ∀ i : Fin 3, x i = 0 := by
    intro x hx i
    obtain ⟨r, hr, rfl⟩ := List.mem_map.mp hx
    exact hcent r hr i
  intro p hp i
  rw [normalize_positions_eq] at hp
  by_cases hm : 0 < maxAbs (ps.map (fun p => vsub p (centroid ps)))
  · rw [if_pos hm] at hp
    obtain ⟨x, hx, rfl⟩ := List.mem_map.mp hp
    unfold vscale
    rw [hmemz x hx i, mul_zero]
  · rw [if_neg hm] at hp
    exact hmemz p hp i

end PointSampler


namespace Metrics

theorem find_oldest_of_recent_pos (tsList : List ℚ) (now : ℚ)
    (h : 1 ≤ recent_generations_per_minute tsList now) :
    ∃ t, tsList.find? (fun t => now - 60 ≤ t) = some t := by
  unfold recent_generations_per_minute at h
  have hne : tsList.reverse.takeWhile (fun t => decide (now - 60 ≤ t)) ≠ [] := by
    intro hcon
    rw [hcon] at h
    simp at h
  obtain ⟨x, hx⟩ := List.exists_mem_of_ne_nil _ hne
  have hxm : x ∈ tsList := List.mem_reverse.mp ((List.takeWhile_sublist _).mem hx)
  have hxp : now - 60 ≤ x := by
    have h2 := List.mem_takeWhile_imp hx
    simpa using h2
  have hsome : (tsList.find? (fun t => decide (now - 60 ≤ t))).isSome :=
    List.find?_isSome.mpr ⟨x, hxm, by simpa using hxp⟩
  exact Option.isSome_iff_exists.mp hsome

/-- When the window is nonempty and some timestamp is in the window,
`oldest_generation_retry_after` is exactly `max 1` of the time until the
first (oldest) in-window timestamp leaves the window. -/
theorem retry_after_eq (tsList : List ℚ) (now toldest : ℚ)
    (hfind : tsList.find? (fun t => now - 60 ≤ t) = some toldest) :
    oldest_generation_retry_after tsList now = max 1 (60 - (now - toldest)) := by
  have hne : tsList ≠ [] := by
    intro hcon
    rw [hcon] at hfind
    simp [List.find?] at hfind
  unfold oldest_generation_retry_after
  match tsList, hne with
  | t :: ts, _ => rw [hfind]

theorem retry_after_bounds (tsList : List ℚ) (now toldest : ℚ)
    (hfind : tsList.find? (fun t => now - 60 ≤ t) = some toldest)
    (hle : ∀ t ∈ tsList, t ≤ now) :
    1 ≤ max 1 (60 - (now - toldest)) ∧ max 1 (60 - (now - toldest)) ≤ 60 := by
  refine ⟨le_max_left _ _, ?_⟩
  have hmem := List.mem_of_find?_eq_some hfind
  have h1 : toldest ≤ now := hle toldest hmem
  have : 60 - (now - toldest) ≤ 60 := by linarith
  exact max_le (by norm_num) this

end Metrics

namespace Orchestrator

/-- Reduction of `generateTraced` on the cache-hit branch. -/
theorem generateTraced_hit (env : TracedEnv) (template : TemplateInfo)
    (stored : GenerateResponse) (h : env.cacheHit = some stored) :
    generateTraced env template =
      (.ok { stored with cached := true, generation_time_ms := env.lookupMs },
       [.cacheLookup]) := by
  unfold generateTraced
  rw [h]

/-- Reduction of `generateTraced` on the rate-limited branch. -/
theorem generateTraced_rateLimited (env : TracedEnv) (template : TemplateInfo)
    (hmiss : env.cacheHit = none) (hm : env.metricsOn = true)
    (hc : env.genLimit ≤ Metrics.recent_generations_per_minute env.timestamps env.now) :
    generateTraced env template =
      (.error (.rateLimited env.genLimit
        (Metrics.oldest_generation_retry_after env.timestamps env.now)),
       [.cacheLookup]) := by
  unfold generateTraced
  rw [hmiss]
  exact if_pos ⟨by simp [hm], hc⟩

end Orchestrator

namespace PointSampler

theorem bumpLast_sum (l : List ℕ) (d : ℕ) (h : l ≠ []) :
    (bumpLast l d).sum = l.sum + d := by
  induction l with
  | nil => cases h rfl
  | cons x t ih =>
    cases t with
    | nil => simp [bumpLast]
    | cons y s =>
      simp only [bumpLast, List.sum_cons]
      rw [ih (by simp)]
      simp only [List.sum_cons]
      omega

theorem allocate_zero_sum (n total : ℕ) (h : 1 ≤ n) :
    (allocate_zero n total).sum = total := by
  unfold allocate_zero
  rw [bumpLast_sum _ _ (by simp; omega)]
  rw [List.sum_replicate]
  have hle : n * (total / n) ≤ total := Nat.mul_div_le total n
  simp only [smul_eq_mul]
  omega

theorem flatten_ids_length (l : List ℤ) :
    ((l.enum).flatMap (fun pr => List.replicate pr.2.toNat pr.1)).length
      = (l.map Int.toNat).sum := by
  suffices h : ∀ k, ((l.enumFrom k).flatMap
      (fun pr => List.replicate pr.2.toNat pr.1)).length = (l.map Int.toNat).sum by
    exact h 0
  induction l with
  | nil => intro k; rfl
  | cons x t ih =>
    intro k
    simp only [List.enumFrom, List.flatMap_cons, List.length_append,
      List.length_replicate, List.map_cons, List.sum_cons]
    rw [ih (k + 1)]

theorem sum_toNat_of_nonneg (l : List ℤ) (h : ∀ x ∈ l, 0 ≤ x) :
    ((l.map Int.toNat).sum : ℤ) = l.sum := by
  induction l with
  | nil => simp
  | cons x t ih =>
    simp only [List.map_cons, List.sum_cons]
    rw [Nat.cast_add, Int.toNat_of_nonneg (h x (List.mem_cons_self x t)),
      ih (fun y hy => h y (List.mem_cons_of_mem x hy))]

theorem sum_set_int (l : List ℤ) (i : ℕ) (v : ℤ) (h : i < l.length) :
    (l.set i v).sum = l.sum - l.getD i 0 + v := by
  induction l generalizing i with
  | nil => simp at h
  | cons x t ih =>
    cases i with
    | zero => simp [List.set]; ring
    | succ j =>
      simp only [List.set, List.sum_cons, List.getD_cons_succ]
      rw [ih j (by simpa using h)]
      ring

theorem sum_map_add_one (l : List ℚ) (f g : ℚ → ℤ)
    (h : ∀ a ∈ l, f a ≤ g a + 1) :
    (l.map f).sum ≤ (l.map g).sum + l.length := by
  induction l with
  | nil => simp
  | cons x t ih =>
    simp only [List.map_cons, List.sum_cons, List.length_cons]
    have h1 := h x (List.mem_cons_self x t)
    have h2 := ih (fun y hy => h y (List.mem_cons_of_mem x hy))
    push_cast
    linarith

theorem sum_floor_le (l : List ℚ) (f : ℚ → ℚ) :
    (((l.map (fun a => ⌊f a⌋)).sum : ℤ) : ℚ) ≤ (l.map f).sum := by
  induction l with
  | nil => simp
  | cons x t ih =>
    simp only [List.map_cons, List.sum_cons]
    push_cast at ih ⊢
    have := Int.floor_le (f x)
    linarith

/-- The map of fractions sums to exactly `total` when the divisor is the
(nonzero) total area. -/
theorem sum_fractions (l : List ℚ) (T : ℚ) (hA : l.sum ≠ 0) :
    (l.map (fun a => a / l.sum * T)).sum = T := by
  have h1 : (l.map (fun a => a / l.sum * T)).sum
      = (l.map id).sum * (T / l.sum) := by
    rw [← List.sum_map_mul_right]
    congr 1
    apply List.map_congr_left
    intro a _
    simp [id]
    ring
  rw [h1, List.map_id]
  field_simp

/-- First-occurrence argmax facts: the index is in range and retrieves a
maximal element. -/
theorem argmax_spec (l : List ℚ) (h : l ≠ []) :
    argmaxIdx l < l.length ∧
    (∀ hlt : argmaxIdx l < l.length, ∀ a ∈ l, a ≤ l[argmaxIdx l]) := by
  cases hM : l.max? with
  | none => exact absurd (List.max?_eq_none_iff.mp hM) h
  | some M =>
  haveI : Std.Antisymm (fun x1 x2 : ℚ => x1 ≤ x2) :=
    ⟨fun h1 h2 => le_antisymm h1 h2⟩
  obtain ⟨hmem, hle⟩ := (List.max?_eq_some_iff le_refl max_choice
    (fun a b c => max_le_iff)).mp hM
  have hgd : l.max?.getD 0 = M := by rw [hM]; rfl
  have hidx : l.indexOf M < l.length := List.indexOf_lt_length.mpr hmem
  have hget : l[l.indexOf M] = M := List.getElem_indexOf hidx
  unfold argmaxIdx
  rw [hgd]
  refine ⟨hidx, fun hlt a ha => ?_⟩
  rw [hget]
  exact hle a ha

theorem sum_le_length_mul (l : List ℚ) (M : ℚ) (h : ∀ x ∈ l, x ≤ M) :
    l.sum ≤ l.length * M := by
  induction l with
  | nil => simp
  | cons x t ih =>
    simp only [List.sum_cons, List.length_cons]
    have h1 := h x (List.mem_cons_self x t)
    have h2 := ih (fun y hy => h y (List.mem_cons_of_mem x hy))
    push_cast
    linarith

/-- In the positive-area branch every part is allocated at least one
point. -/
theorem allocate_pos_entries (areas : List ℚ) (T : ℕ) (hne : areas ≠ []) :
    ∀ x ∈ allocate_pos areas T, 1 ≤ x := by
  obtain ⟨hlt, -⟩ := argmax_spec areas hne
  set A := areas.sum with hAdef
  set pts := areas.map (fun a => max (pyInt (a / A * T)) 1) with hpts
  set diff : ℤ := (T : ℤ) - pts.sum with hdiff
  set li := argmaxIdx areas with hlidef
  have hlt' : li < pts.length := by rw [hpts, List.length_map]; exact hlt
  have hmem : ∀ x ∈ pts, 1 ≤ x := by
    intro x hx
    obtain ⟨a, -, rfl⟩ := List.mem_map.mp hx
    exact le_max_right _ _
  have hget1 : 1 ≤ pts.getD li 0 := by
    rw [List.getD_eq_getElem pts 0 hlt']
    exact hmem _ (List.getElem_mem hlt')
  have hrw : allocate_pos areas T =
      (if 0 < diff then pts.set li (pts.getD li 0 + diff)
       else if diff < 0 then pts.set li (max 1 (pts.getD li 0 + diff))
       else pts) := rfl
  rw [hrw]
  by_cases h1 : 0 < diff
  · rw [if_pos h1]
    intro x hx
    rcases List.mem_or_eq_of_mem_set hx with hx | rfl
    · exact hmem x hx
    · omega
  · rw [if_neg h1]
    by_cases h2 : diff < 0
    · rw [if_pos h2]
      intro x hx
      rcases List.mem_or_eq_of_mem_set hx with hx | rfl
      · exact hmem x hx
      · exact le_max_left _ _
    · rw [if_neg h2]
      exact hmem

/-- In the positive-area branch, when the budget is at least
`n * (n + 1)` for `n` parts, the allocation sums to exactly the budget
(the clamp on the largest part never binds). -/
theorem allocate_pos_sum (areas : List ℚ) (T : ℕ) (hne : areas ≠ [])
    (hpos : ∀ a ∈ areas, 0 ≤ a) (hA : 0 < areas.sum)
    (hT : areas.length * (areas.length + 1) ≤ T) :
    (allocate_pos areas T).sum = T := by
  have hAne : areas.sum ≠ 0 := ne_of_gt hA
  obtain ⟨hlt, hmax⟩ := argmax_spec areas hne
  set A := areas.sum with hAdef
  set n := areas.length with hndef
  set pts := areas.map (fun a => max (pyInt (a / A * T)) 1) with hpts
  set diff : ℤ := (T : ℤ) - pts.sum with hdiff
  set li := argmaxIdx areas with hlidef
  have hlt' : li < pts.length := by rw [hpts, List.length_map]; exact hlt
  have hn0 : 0 < (n : ℚ) := by
    rw [hndef]
    exact_mod_cast List.length_pos.mpr hne
  have hali_mem : areas[li] ∈ areas := List.getElem_mem hlt
  have hali_nonneg : 0 ≤ areas[li] := hpos _ hali_mem
  -- the largest area is at least the average
  have hMla : A ≤ n * areas[li] := by
    have h1 : A ≤ n * areas[li] := by
      rw [hAdef, hndef]
      exact sum_le_length_mul areas areas[li] (hmax hlt)
    exact h1
  -- the largest fraction times the budget is at least n + 1
  have hfrac : (n : ℚ) + 1 ≤ areas[li] / A * T := by
    have h1 : A / n ≤ areas[li] := (div_le_iff₀ hn0).mpr (by linarith [hMla])
    have h2 : (1 : ℚ) / n ≤ areas[li] / A := by
      rw [div_le_div_iff hn0 hA]
      linarith [hMla]
    have h3 : (T : ℚ) / n ≤ areas[li] / A * T := by
      have h4 : (1 : ℚ) / n * T ≤ areas[li] / A * T :=
        mul_le_mul_of_nonneg_right h2 (by positivity)
      calc (T : ℚ) / n = 1 / n * T := by ring
      _ ≤ areas[li] / A * T := h4
    have h5 : (n : ℚ) + 1 ≤ (T : ℚ) / n := by
      rw [le_div_iff hn0]
      have : ((n * (n + 1) : ℕ) : ℚ) ≤ (T : ℚ) := by exact_mod_cast hT
      push_cast at this
      linarith
    linarith
  -- hence the largest part's allocation is at least n + 1
  have hptsli : (n : ℤ) + 1 ≤ pts.getD li 0 := by
    rw [List.getD_eq_getElem pts 0 hlt']
    have hg : pts[li] = max (pyInt (areas[li] / A * T)) 1 :=
      List.getElem_map _
    rw [hg]
    have hnn : (0 : ℚ) ≤ areas[li] / A * T := by positivity
    have hfl : pyInt (areas[li] / A * T) = ⌊areas[li] / A * T⌋ := if_pos hnn
    rw [hfl]
    refine le_trans ?_ (le_max_left _ _)
    apply Int.le_floor.mpr
    push_cast
    exact hfrac
  -- the total allocation exceeds the budget by at most n
  have hsum_le : pts.sum ≤ (T : ℤ) + n := by
    have h1 : pts.sum ≤ (areas.map (fun a => pyInt (a / A * T))).sum + n := by
      rw [hpts, hndef]
      apply sum_map_add_one
      intro a ha
      have hnn : (0 : ℚ) ≤ a / A * T := by
        have := hpos a ha
        positivity
      have h0 : (0 : ℤ) ≤ pyInt (a / A * T) := by
        rw [pyInt, if_pos hnn]
        exact Int.floor_nonneg.mpr hnn
      have : max (pyInt (a / A * T)) 1 ≤ pyInt (a / A * T) + 1 :=
        max_le (by linarith) (by linarith)
      exact this
    have h2 : (areas.map (fun a => pyInt (a / A * T))).sum ≤ (T : ℤ) := by
      have hfl : areas.map (fun a => pyInt (a / A * T))
          = areas.map (fun a => ⌊a / A * T⌋) := by
        apply List.map_congr_left
        intro a ha
        have := hpos a ha
        rw [pyInt, if_pos (by positivity)]
      rw [hfl]
      have hle := sum_floor_le areas (fun a => a / A * T)
      have hfr : (areas.map (fun a => a / A * T)).sum = (T : ℚ) := by
        rw [hAdef]
        exact sum_fractions areas T hAne
      rw [hfr] at hle
      exact_mod_cast hle
    linarith
  have hrw : allocate_pos areas T =
      (if 0 < diff then pts.set li (pts.getD li 0 + diff)
       else if diff < 0 then pts.set li (max 1 (pts.getD li 0 + diff))
       else pts) := rfl
  rw [hrw]
  by_cases h1 : 0 < diff
  · rw [if_pos h1, sum_set_int _ _ _ hlt']
    omega
  · rw [if_neg h1]
    by_cases h2 : diff < 0
    · rw [if_pos h2, sum_set_int _ _ _ hlt']
      have hclamp : 1 ≤ pts.getD li 0 + diff := by omega
      rw [max_eq_right hclamp]
      omega
    · rw [if_neg h2]
      omega

end PointSampler

namespace MaskToFaces

theorem coveredFaces_nodup (e : MaskEntry) : (coveredFaces e).Nodup := by
  unfold coveredFaces
  exact ((List.perm_insertionSort _ _).nodup_iff).mpr (List.nodup_dedup _)

/-- Steps on faces other than `f` do not change `f`'s state. -/
theorem foldl_entryStep_untouched (cs : List ℕ) (n pidx a : ℕ) (st : LoopSt)
    (f : ℕ) (hf : f ∉ cs) :
    (cs.foldl (entryStep n pidx a) st).labels f = st.labels f ∧
    (cs.foldl (entryStep n pidx a) st).areas f = st.areas f := by
  induction cs generalizing st with
  | nil => exact ⟨rfl, rfl⟩
  | cons c cs ih =>
    have hfc : f ≠ c := fun h => hf (h ▸ List.mem_cons_self c cs)
    have hrest : f ∉ cs := fun h => hf (List.mem_cons_of_mem c h)
    obtain ⟨h1, h2⟩ := ih (entryStep n pidx a st c) hrest
    rw [List.foldl_cons]
    rw [h1, h2]
    unfold entryStep
    split
    · exact ⟨Function.update_noteq hfc _ _, Function.update_noteq hfc _ _⟩
    · exact ⟨rfl, rfl⟩

/-- The per-face effect of the inner loop over a duplicate-free face
list. -/
theorem foldl_entryStep_at (cs : List ℕ) (hnd : cs.Nodup) (n pidx a : ℕ)
    (st : LoopSt) (f : ℕ) :
    ((cs.foldl (entryStep n pidx a) st).labels f,
     (cs.foldl (entryStep n pidx a) st).areas f) =
      (if f ∈ cs ∧ f < n ∧ (a : WithTop ℕ) < st.areas f then
        ((pidx : ℤ), (a : WithTop ℕ))
      else (st.labels f, st.areas f)) := by
  induction cs generalizing st with
  | nil => simp
  | cons c cs ih =>
    rw [List.foldl_cons]
    rcases eq_or_ne f c with rfl | hfc
    · have hfn : f ∉ cs := (List.nodup_cons.mp hnd).1
      obtain ⟨h1, h2⟩ := foldl_entryStep_untouched cs n pidx a
        (entryStep n pidx a st f) f hfn
      rw [h1, h2]
      unfold entryStep
      by_cases hc : f < n ∧ (a : WithTop ℕ) < st.areas f
      · rw [if_pos hc, if_pos ⟨List.mem_cons_self f cs, hc⟩]
        simp
      · rw [if_neg hc, if_neg (fun h => hc ⟨h.2.1, h.2.2⟩)]
    · have hst : (entryStep n pidx a st c).labels f = st.labels f ∧
          (entryStep n pidx a st c).areas f = st.areas f := by
        unfold entryStep
        split
        · exact ⟨Function.update_noteq hfc _ _, Function.update_noteq hfc _ _⟩
        · exact ⟨rfl, rfl⟩
      rw [ih (List.nodup_cons.mp hnd).2 (entryStep n pidx a st c), hst.1, hst.2]
      simp only [List.mem_cons, hfc, false_or]

/-- The covering predicate of one face, as a Boolean. -/
theorem applyEntry_at (n : ℕ) (p2i : String → ℕ) (st : LoopSt) (e : MaskEntry)
    (f : ℕ) :
    ((applyEntry n p2i st e).labels f, (applyEntry n p2i st e).areas f) =
      (if f ∈ coveredFaces e ∧ f < n ∧ (e.area : WithTop ℕ) < st.areas f then
        (((p2i e.part : ℕ) : ℤ), (e.area : WithTop ℕ))
      else (st.labels f, st.areas f)) :=
  foldl_entryStep_at (coveredFaces e) (coveredFaces_nodup e) n (p2i e.part)
    e.area st f

/-- Projection of the whole conflict-resolution pass onto one face: its
final state is a fold of `faceStep` over the entries covering it. -/
theorem runFrom_at (es : List MaskEntry) (n : ℕ) (p2i : String → ℕ)
    (st : LoopSt) (f : ℕ) :
    ((es.foldl (applyEntry n p2i) st).labels f,
     (es.foldl (applyEntry n p2i) st).areas f) =
      (es.filter (fun e => decide (f ∈ coveredFaces e) && decide (f < n))).foldl
        (faceStep p2i) (st.labels f, st.areas f) := by
  induction es generalizing st with
  | nil => rfl
  | cons e es ih =>
    rw [List.foldl_cons, ih (applyEntry n p2i st e), applyEntry_at n p2i st e f]
    by_cases hc : f ∈ coveredFaces e ∧ f < n
    · rw [List.filter_cons_of_pos (by simp [hc.1, hc.2]), List.foldl_cons]
      congr 1
      unfold faceStep
      by_cases ha : (e.area : WithTop ℕ) < st.areas f
      · rw [if_pos ⟨hc.1, hc.2, ha⟩, if_pos ha]
      · rw [if_neg (fun h => ha h.2.2), if_neg ha]
    · rw [List.filter_cons_of_neg (by simpa using fun h1 h2 => hc ⟨h1, h2⟩)]
      rw [if_neg (fun h => hc ⟨h.1, h.2.1⟩)]

theorem runEntries_at (es : List MaskEntry) (n : ℕ) (p2i : String → ℕ) (f : ℕ) :
    ((runEntries n p2i es).labels f, (runEntries n p2i es).areas f) =
      (es.filter (fun e => decide (f ∈ coveredFaces e) && decide (f < n))).foldl
        (faceStep p2i) (-1, ⊤) :=
  runFrom_at es n p2i ⟨fun _ => -1, fun _ => ⊤⟩ f

theorem foldl_faceStep_const (p2i : String → ℕ) (pr : ℤ × WithTop ℕ)
    (l : List MaskEntry) (h : ∀ x ∈ l, ¬((x.area : WithTop ℕ) < pr.2)) :
    l.foldl (faceStep p2i) pr = pr := by
  induction l with
  | nil => rfl
  | cons c rest ih =>
    rw [List.foldl_cons]
    have hc : faceStep p2i pr c = pr := by
      unfold faceStep
      rw [if_neg (h c (List.mem_cons_self c rest))]
    rw [hc]
    exact ih (fun x hx => h x (List.mem_cons_of_mem c hx))

/-- Folding `faceStep` over an area-sorted entry list in which `e` is
the unique area-minimum yields `e`'s label and area. -/
theorem foldl_faceStep_unique_min (p2i : String → ℕ) (cov : List MaskEntry)
    (e : MaskEntry)
    (hsort : cov.Pairwise (fun a b => a.area ≤ b.area))
    (hmem : e ∈ cov)
    (hmin : ∀ x ∈ cov, x = e ∨ e.area < x.area) :
    cov.foldl (faceStep p2i) (-1, ⊤) =
      (((p2i e.part : ℕ) : ℤ), (e.area : WithTop ℕ)) := by
  cases cov with
  | nil => cases hmem
  | cons c rest =>
    have hce : c = e := by
      rcases hmin c (List.mem_cons_self c rest) with h | h
      · exact h
      · rcases List.mem_cons.mp hmem with rfl | hm
        · rfl
        · have hle := (List.pairwise_cons.mp hsort).1 e hm
          omega
    subst hce
    rw [List.foldl_cons]
    have hstep : faceStep p2i (-1, ⊤) c = (((p2i c.part : ℕ) : ℤ), (c.area : WithTop ℕ)) := by
      simp [faceStep]
    rw [hstep]
    apply foldl_faceStep_const
    intro x hx
    rcases hmin x (List.mem_cons_of_mem c hx) with rfl | h
    · dsimp only
      simp
    · dsimp only
      intro hlt
      have hlt2 : x.area < c.area := by exact_mod_cast hlt
      omega

/-- `argminIdx` of a nonempty list is in range
(`KDTree.query` returns a valid index). -/
theorem argmin_lt (l : List ℚ) (h : l ≠ []) : argminIdx l < l.length := by
  cases hM : l.min? with
  | none => exact absurd (List.min?_eq_none_iff.mp hM) h
  | some m =>
    have hmem : m ∈ l := List.min?_mem (fun a b => min_choice a b) hM
    unfold argminIdx
    rw [hM]
    exact List.indexOf_lt_length.mpr hmem

/-- The reflection clone only writes to faces that were unlabeled at
entry. -/
theorem cloneStep_preserves (centroids : List PointSampler.Vec3)
    (unl : List ℕ) (ti : ℕ) (lab : ℕ → ℤ) (sf f : ℕ)
    (hunl : unl ≠ []) (hf : f ∉ unl) :
    cloneStep centroids unl ti lab sf f = lab f := by
  unfold cloneStep
  split
  · have hnn : argminIdx (unl.map (fun u => PointSampler.sqDist
        (reflectX (centroids.getD sf default))
        (centroids.getD u default))) < unl.length := by
      have h := argmin_lt (unl.map (fun u => PointSampler.sqDist
        (reflectX (centroids.getD sf default))
        (centroids.getD u default))) (by simpa using hunl)
      simpa using h
    have htgt : unl.getD (argminIdx (unl.map (fun u => PointSampler.sqDist
        (reflectX (centroids.getD sf default))
        (centroids.getD u default)))) 0 ∈ unl := by
      rw [List.getD_eq_getElem unl 0 hnn]
      exact List.getElem_mem hnn
    exact Function.update_noteq (fun heq => hf (by rw [heq]; exact htgt)) _ _
  · rfl

theorem clone_preserves (labels : ℕ → ℤ) (centroids : List PointSampler.Vec3)
    (si ti n f : ℕ) (hne : labels f ≠ -1) :
    cloneViaReflection labels centroids si ti n f = labels f := by
  unfold cloneViaReflection
  split
  · rfl
  · split
    · rfl
    · rename_i h1 h2
      have hf : f ∉ (List.range n).filter (fun g => labels g = -1) := by
        intro hmem
        exact hne (by simpa using (List.mem_filter.mp hmem).2)
      have hkey : ∀ (sfs : List ℕ) (lab : ℕ → ℤ), lab f = labels f →
          (sfs.foldl (cloneStep centroids
            ((List.range n).filter (fun g => labels g = -1)) ti) lab) f
            = labels f := by
        intro sfs
        induction sfs with
        | nil => intro lab h; exact h
        | cons sf sfs ih =>
          intro lab h
          rw [List.foldl_cons]
          apply ih
          rw [cloneStep_preserves centroids _ ti lab sf f h2 hf]
          exact h
      exact hkey _ labels rfl

/-- The symmetric-part heuristic never overwrites an already labeled
face. -/
theorem symStep_preserves (centroids : List PointSampler.Vec3) (n : ℕ)
    (seen : List String) (p2i : String → ℕ) (pns : List String)
    (st : List String × (ℕ → ℤ)) (name : String) (f : ℕ)
    (hne : st.2 f ≠ -1) :
    (symStep centroids n seen p2i pns st name).2 f = st.2 f := by
  unfold symStep
  split
  · rfl
  · split
    · rfl
    · split
      · rfl
      · split
        · exact clone_preserves st.2 centroids _ _ n f hne
        · split
          · exact clone_preserves st.2 centroids _ _ n f hne
          · rfl

theorem sym_preserves (centroids : List PointSampler.Vec3) (n : ℕ)
    (seen : List String) (p2i : String → ℕ) (pns : List String)
    (labels0 : ℕ → ℤ) (f : ℕ) (hne : labels0 f ≠ -1) :
    applySymmetric centroids n seen p2i pns labels0 f = labels0 f := by
  unfold applySymmetric
  have hkey : ∀ (l : List String) (st : List String × (ℕ → ℤ)),
      st.2 f = labels0 f →
      (l.foldl (symStep centroids n seen p2i pns) st).2 f = labels0 f := by
    intro l
    induction l with
    | nil => intro st h; exact h
    | cons name rest ih =>
      intro st h
      rw [List.foldl_cons]
      apply ih
      rw [symStep_preserves centroids n seen p2i pns st name f (h ▸ hne)]
      exact h
  exact hkey pns ([], labels0) rfl

/-- The nearest-neighbour fill never overwrites an already labeled
face. -/
theorem fill_preserves (centroids : List PointSampler.Vec3) (n : ℕ)
    (labels : ℕ → ℤ) (f : ℕ) (hfn : f < n) (hne : labels f ≠ -1) :
    fillUnlabeled centroids n labels f = labels f := by
  unfold fillUnlabeled
  split
  · dsimp only
    rw [if_neg hne]
  · split
    · rename_i hlen
      exfalso
      have hlen2 : ((List.range n).filter
          (fun g => decide (labels g = -1))).length = (List.range n).length := by
        simpa using hlen
      have hall := List.filter_length_eq_length.mp hlen2
      have := hall f (List.mem_range.mpr hfn)
      exact hne (by simpa using this)
    · rfl

theorem faceStep_fold_inv (p2i : String → ℕ) (l : List MaskEntry)
    (pr : ℤ × WithTop ℕ) (h : pr.1 = -1 ∨ 0 ≤ pr.1) :
    (l.foldl (faceStep p2i) pr).1 = -1 ∨ 0 ≤ (l.foldl (faceStep p2i) pr).1 := by
  induction l generalizing pr with
  | nil => exact h
  | cons e es ih =>
    rw [List.foldl_cons]
    apply ih
    unfold faceStep
    split
    · exact Or.inr (Int.natCast_nonneg _)
    · exact h

/-- After the conflict-resolution pass every label is `-1` or a valid
part index. -/
theorem runEntries_labels_inv (es : List MaskEntry) (n : ℕ)
    (p2i : String → ℕ) (f : ℕ) :
    (runEntries n p2i es).labels f = -1 ∨ 0 ≤ (runEntries n p2i es).labels f := by
  have hpair := runEntries_at es n p2i f
  have h1 := congrArg Prod.fst hpair
  dsimp only at h1
  rw [h1]
  exact faceStep_fold_inv p2i _ (-1, ⊤) (Or.inl rfl)

theorem cloneStep_inv (centroids : List PointSampler.Vec3) (unl : List ℕ)
    (ti : ℕ) (lab : ℕ → ℤ) (sf : ℕ)
    (h : ∀ g, lab g = -1 ∨ 0 ≤ lab g) :
    ∀ g, cloneStep centroids unl ti lab sf g = -1 ∨
      0 ≤ cloneStep centroids unl ti lab sf g := by
  intro g
  unfold cloneStep
  split
  · rcases eq_or_ne g (unl.getD (argminIdx (unl.map (fun u =>
      PointSampler.sqDist (reflectX (centroids.getD sf default))
        (centroids.getD u default)))) 0) with rfl | hne
    · rw [Function.update_same]
      exact Or.inr (Int.natCast_nonneg _)
    · rw [Function.update_noteq hne]
      exact h g
  · exact h g

theorem clone_inv (labels : ℕ → ℤ) (centroids : List PointSampler.Vec3)
    (si ti n : ℕ) (h : ∀ g, labels g = -1 ∨ 0 ≤ labels g) :
    ∀ g, cloneViaReflection labels centroids si ti n g = -1 ∨
      0 ≤ cloneViaReflection labels centroids si ti n g := by
  unfold cloneViaReflection
  split
  · exact h
  · split
    · exact h
    · have hkey : ∀ (sfs : List ℕ) (lab : ℕ → ℤ),
          (∀ g, lab g = -1 ∨ 0 ≤ lab g) →
          ∀ g, (sfs.foldl (cloneStep centroids
            ((List.range n).filter (fun g => labels g = -1)) ti) lab) g = -1 ∨
            0 ≤ (sfs.foldl (cloneStep centroids
              ((List.range n).filter (fun g => labels g = -1)) ti) lab) g := by
        intro sfs
        induction sfs with
        | nil => intro lab hl; exact hl
        | cons sf sfs ih =>
          intro lab hl
          rw [List.foldl_cons]
          exact ih _ (cloneStep_inv centroids _ ti lab sf hl)
      exact hkey _ labels h

theorem symStep_inv (centroids : List PointSampler.Vec3) (n : ℕ)
    (seen : List String) (p2i : String → ℕ) (pns : List String)
    (st : List String × (ℕ → ℤ)) (name : String)
    (h : ∀ g, st.2 g = -1 ∨ 0 ≤ st.2 g) :
    ∀ g, (symStep centroids n seen p2i pns st name).2 g = -1 ∨
      0 ≤ (symStep centroids n seen p2i pns st name).2 g := by
  unfold symStep
  split
  · exact h
  · split
    · exact h
    · split
      · exact h
      · split
        · exact clone_inv st.2 centroids _ _ n h
        · split
          · exact clone_inv st.2 centroids _ _ n h
          · exact h

theorem sym_inv (centroids : List PointSampler.Vec3) (n : ℕ)
    (seen : List String) (p2i : String → ℕ) (pns : List String)
    (labels0 : ℕ → ℤ) (h : ∀ g, labels0 g = -1 ∨ 0 ≤ labels0 g) :
    ∀ g, applySymmetric centroids n seen p2i pns labels0 g = -1 ∨
      0 ≤ applySymmetric centroids n seen p2i pns labels0 g := by
  unfold applySymmetric
  have hkey : ∀ (l : List String) (st : List String × (ℕ → ℤ)),
      (∀ g, st.2 g = -1 ∨ 0 ≤ st.2 g) →
      ∀ g, (l.foldl (symStep centroids n seen p2i pns) st).2 g = -1 ∨
        0 ≤ (l.foldl (symStep centroids n seen p2i pns) st).2 g := by
    intro l
    induction l with
    | nil => intro st hst; exact hst
    | cons name rest ih =>
      intro st hst
      rw [List.foldl_cons]
      exact ih _ (symStep_inv centroids n seen p2i pns st name hst)
  exact hkey pns ([], labels0) h

/-- The fill pass leaves every face with a nonnegative label. -/
theorem fill_nonneg (centroids : List PointSampler.Vec3) (n : ℕ)
    (labels : ℕ → ℤ) (h : ∀ g, labels g = -1 ∨ 0 ≤ labels g)
    (f : ℕ) (hf : f < n) :
    0 ≤ fillUnlabeled centroids n labels f := by
  unfold fillUnlabeled
  split
  · rename_i hcond
    dsimp only
    by_cases hlf : labels f = -1
    · rw [if_pos hlf]
      set labd := (List.range n).filter (fun g => labels g ≠ -1) with hlabd
      have hlabd_ne : labd ≠ [] := hcond.2
      have hmaplen : (labd.map (fun g => PointSampler.sqDist
          (centroids.getD f default) (centroids.getD g default))).length
            = labd.length := List.length_map _ _
      have hlen : argminIdx (labd.map (fun g => PointSampler.sqDist
          (centroids.getD f default) (centroids.getD g default))) < labd.length := by
        have := argmin_lt (labd.map (fun g => PointSampler.sqDist
          (centroids.getD f default) (centroids.getD g default)))
          (by simpa using hlabd_ne)
        rw [hmaplen] at this
        exact this
      have htgt : labd.getD (argminIdx (labd.map (fun g => PointSampler.sqDist
          (centroids.getD f default) (centroids.getD g default)))) 0 ∈ labd := by
        rw [List.getD_eq_getElem labd 0 hlen]
        exact List.getElem_mem hlen
      have htne : labels (labd.getD (argminIdx (labd.map (fun g =>
          PointSampler.sqDist (centroids.getD f default)
            (centroids.getD g default)))) 0) ≠ -1 := by
        have := (List.mem_filter.mp htgt).2
        simpa using this
      rcases h _ with h1 | h1
      · exact absurd h1 htne
      · exact h1
    · rw [if_neg hlf]
      rcases h f with h1 | h1
      · exact absurd h1 hlf
      · exact h1
  · split
    · norm_num
    · rename_i hcond hlen
      rcases h f with h1 | h1
      · exfalso
        have hfu : f ∈ (List.range n).filter (fun g => labels g = -1) :=
          List.mem_filter.mpr ⟨List.mem_range.mpr hf, by simpa using h1⟩
        have hunl_ne : (List.range n).filter (fun g => labels g = -1) ≠ [] :=
          List.ne_nil_of_mem hfu
        have hlabd : (List.range n).filter (fun g => labels g ≠ -1) = [] := by
          by_contra hl
          exact hcond ⟨hunl_ne, hl⟩
        have hall : ∀ g ∈ List.range n, labels g = -1 := by
          intro g hg
          by_contra hgl
          have hmem : g ∈ (List.range n).filter (fun g => labels g ≠ -1) :=
            List.mem_filter.mpr ⟨hg, by simpa using hgl⟩
          rw [hlabd] at hmem
          cases hmem
        have hself : (List.range n).filter (fun g => labels g = -1)
            = List.range n := by
          apply List.filter_eq_self.mpr
          intro g hg
          simpa using hall g hg
        exact hlen (by rw [hself, List.length_range])
      · exact h1

/-- With no face directly covered, the conflict-resolution pass leaves
every face unlabeled. -/
theorem runEntries_no_cover (es : List MaskEntry) (n : ℕ)
    (p2i : String → ℕ) (f : ℕ)
    (hnc : ∀ e ∈ es, ¬(f ∈ coveredFaces e ∧ f < n)) :
    (runEntries n p2i es).labels f = -1 := by
  have hpair := runEntries_at es n p2i f
  have hfilt : es.filter
      (fun e => decide (f ∈ coveredFaces e) && decide (f < n)) = [] := by
    rw [List.filter_eq_nil_iff]
    intro e he
    have := hnc e he
    simp only [Bool.and_eq_true, decide_eq_true_eq]
    tauto
  rw [hfilt] at hpair
  exact congrArg Prod.fst hpair

/-- The symmetric heuristic does nothing when every face is unlabeled. -/
theorem symStep_noop (centroids : List PointSampler.Vec3) (n : ℕ)
    (seen : List String) (p2i : String → ℕ) (pns : List String)
    (st : List String × (ℕ → ℤ)) (name : String)
    (hall : ∀ g, st.2 g = -1) :
    (symStep centroids n seen p2i pns st name).2 = st.2 := by
  unfold symStep
  split
  · rfl
  · split
    · rfl
    · split
      · rfl
      · have hcount : ∀ idx : ℕ, countLabel n st.2 idx = 0 := by
          intro idx
          unfold countLabel
          rw [List.filter_eq_nil_iff.mpr]
          · rfl
          · intro g _
            simp only [decide_eq_true_eq]
            rw [hall g]
            omega
        rw [if_neg (by rw [hcount]; omega), if_neg (by rw [hcount]; omega)]

theorem sym_noop (centroids : List PointSampler.Vec3) (n : ℕ)
    (seen : List String) (p2i : String → ℕ) (pns : List String)
    (labels0 : ℕ → ℤ) (hall : ∀ g, labels0 g = -1) :
    applySymmetric centroids n seen p2i pns labels0 = labels0 := by
  unfold applySymmetric
  have hkey : ∀ (l : List String) (st : List String × (ℕ → ℤ)),
      st.2 = labels0 →
      (l.foldl (symStep centroids n seen p2i pns) st).2 = labels0 := by
    intro l
    induction l with
    | nil => intro st h; exact h
    | cons name rest ih =>
      intro st h
      rw [List.foldl_cons]
      apply ih
      rw [symStep_noop centroids n seen p2i pns st name (fun g => by rw [h]; exact hall g)]
      exact h
  exact hkey pns ([], labels0) rfl

/-- The fill pass maps an entirely unlabeled mesh to all-zero labels. -/
theorem fill_all_neg (centroids : List PointSampler.Vec3) (n : ℕ)
    (labels : ℕ → ℤ) (hall : ∀ g, labels g = -1) :
    fillUnlabeled centroids n labels = fun _ => 0 := by
  have hlabd : (List.range n).filter (fun g => labels g ≠ -1) = [] := by
    rw [List.filter_eq_nil_iff]
    intro g _
    simp [hall g]
  have hunl : (List.range n).filter (fun g => labels g = -1) = List.range n := by
    apply List.filter_eq_self.mpr
    intro g _
    simp [hall g]
  have hrw : fillUnlabeled centroids n labels =
      (if ((List.range n).filter (fun g => labels g = -1)) ≠ [] ∧
          ((List.range n).filter (fun g => labels g ≠ -1)) ≠ [] then
        (fun f => if labels f = -1 then
          labels (((List.range n).filter (fun g => labels g ≠ -1)).getD
            (argminIdx (((List.range n).filter (fun g => labels g ≠ -1)).map
              (fun g => PointSampler.sqDist (centroids.getD f default)
                (centroids.getD g default)))) 0)
        else labels f)
      else if ((List.range n).filter (fun g => labels g = -1)).length = n then
        (fun _ => 0)
      else labels) := rfl
  rw [hrw, if_neg (fun hc => hc.2 hlabd),
    if_pos (by rw [hunl, List.length_range])]

end MaskToFaces

namespace MaskToFaces

theorem out_getD (centroids : List PointSampler.Vec3) (labels1 : ℕ → ℤ)
    (f : ℕ) (hfn : f < centroids.length) :
    ((List.range centroids.length).map
      (fillUnlabeled centroids centroids.length labels1)).getD f 0 =
      fillUnlabeled centroids centroids.length labels1 f := by
  have hlen : f < ((List.range centroids.length).map
      (fillUnlabeled centroids centroids.length labels1)).length := by
    simpa using hfn
  rw [List.getD_eq_getElem _ 0 hlen, List.getElem_map]
  rw [List.getElem_range]

theorem map_range_zero (n : ℕ) :
    (List.range n).map (fun _ => (0 : ℤ)) = List.replicate n 0 := by
  apply List.eq_replicate_iff.mpr
  constructor
  · simp
  · intro b hb
    obtain ⟨a, -, rfl⟩ := List.mem_map.mp hb
    rfl

end MaskToFaces

-- ═════════════════════════════════════════════════════════════════════════
-- Claim theorems.
-- ═════════════════════════════════════════════════════════════════════════

/-- Claim C9: for every point cloud with at least two distinct points,
the output of `normalize_positions` has centroid exactly the origin (so
within any tolerance ε) and maximum absolute coordinate exactly `1` (so
at most `1 + ε`); an input of identical points (in particular a single
point) normalizes to the origin without error. -/
theorem claim_C9_normalization_invariant (ps : List PointSampler.Vec3)
    (hne : ps ≠ []) :
    ((∃ p ∈ ps, ∃ q ∈ ps, p ≠ q) →
      (∀ i : Fin 3, PointSampler.centroid (PointSampler.normalize_positions ps) i = 0) ∧
      PointSampler.maxAbs (PointSampler.normalize_positions ps) = 1) ∧
    ((∀ p ∈ ps, ∀ q ∈ ps, p = q) →
      ∀ p ∈ PointSampler.normalize_positions ps, ∀ i : Fin 3, p i = 0) :=
  ⟨fun hd => ⟨PointSampler.centroid_normalize_eq_zero ps hne hd,
    PointSampler.maxAbs_normalize_eq_one ps hd⟩,
   PointSampler.normalize_const_eq_zero ps hne⟩

/-- Witness for C9 at the concrete cloud `[(0,0,0), (2,2,2)]`. -/
theorem claim_C9_normalization_invariant_witness :
    PointSampler.maxAbs (PointSampler.normalize_positions
      [(fun _ => 0 : PointSampler.Vec3), (fun _ => 2 : PointSampler.Vec3)]) = 1 :=
  ((claim_C9_normalization_invariant _ (by decide)).1 (by decide)).2

/-- Claim C4: on a cache miss (with metrics configured and a per-minute
budget of at least 1), if the count of generation timestamps within the
trailing 60-second window is at least the budget, `generate()` fails
with a RateLimited error carrying the budget, computed before resolving
the template or invoking any model (the effect trace stops at the cache
lookup); its retry-after is the time until the oldest in-window
timestamp leaves the window clamped below at 1 second, hence positive,
at least 1, and (as timestamps are past readings, `t ≤ now`) at most 60
seconds. -/
theorem claim_C4_rate_limited (env : Orchestrator.TracedEnv)
    (template : Orchestrator.TemplateInfo)
    (hmiss : env.cacheHit = none)
    (hm : env.metricsOn = true)
    (hlim : 1 ≤ env.genLimit)
    (hcount : env.genLimit ≤
      Metrics.recent_generations_per_minute env.timestamps env.now)
    (hle : ∀ t ∈ env.timestamps, t ≤ env.now) :
    ∃ toldest,
      env.timestamps.find? (fun t => env.now - 60 ≤ t) = some toldest ∧
      Orchestrator.generateTraced env template =
        (.error (.rateLimited env.genLimit (max 1 (60 - (env.now - toldest)))),
         [.cacheLookup]) ∧
      1 ≤ max 1 (60 - (env.now - toldest)) ∧
      0 < max 1 (60 - (env.now - toldest)) ∧
      max 1 (60 - (env.now - toldest)) ≤ 60 := by
  obtain ⟨toldest, hfind⟩ :=
    Metrics.find_oldest_of_recent_pos env.timestamps env.now (le_trans hlim hcount)
  obtain ⟨hb1, hb60⟩ := Metrics.retry_after_bounds env.timestamps env.now toldest hfind hle
  refine ⟨toldest, hfind, ?_, hb1, lt_of_lt_of_le zero_lt_one hb1, hb60⟩
  rw [Orchestrator.generateTraced_rateLimited env template hmiss hm hcount,
    Metrics.retry_after_eq env.timestamps env.now toldest hfind]

/-- Witness for C4: one generation 30 seconds ago, budget 1; the next
miss is rate-limited with retry-after 30. -/
theorem claim_C4_rate_limited_witness :
    Orchestrator.generateTraced
      { cacheHit := none, lookupMs := 0, metricsOn := true, genLimit := 1,
        timestamps := [100], now := 130, syncTimedOut := false,
        syncEnv := ⟨false, .ok (), false, .ok [], .ok ()⟩, elapsedMs := 0,
        encPositions := "", encPartIds := "",
        bboxMin := fun _ => 0, bboxMax := fun _ => 0 }
      { template_type := "quadruped", part_names := [] } =
      (.error (.rateLimited 1 30), [.cacheLookup]) := by
  obtain ⟨t, hfind, hres, -, -, -⟩ :=
    claim_C4_rate_limited
      { cacheHit := none, lookupMs := 0, metricsOn := true, genLimit := 1,
        timestamps := [100], now := 130, syncTimedOut := false,
        syncEnv := ⟨false, .ok (), false, .ok [], .ok ()⟩, elapsedMs := 0,
        encPositions := "", encPartIds := "",
        bboxMin := fun _ => 0, bboxMax := fun _ => 0 }
      { template_type := "quadruped", part_names := [] }
      rfl rfl le_rfl
      (by norm_num [Metrics.recent_generations_per_minute, List.takeWhile])
      (by intro t ht; rw [List.mem_singleton] at ht; rw [ht]; norm_num)
  have ht : t = 100 := by
    norm_num [List.find?] at hfind
    exact hfind.symm
  rw [hres, ht]
  norm_num

/-- Claim C8: on a cache hit, `generate()` returns the stored result with
`cached = true` and `generation_time_ms` set to the lookup latency, and
every other field (positions, part ids, part names, template type,
bounding box, pipeline) unchanged from the stored value; and a repeated
identical request finds the stored response in the memory tier under the
same cache key, so the second response carries the identical
`positions`/`part_ids` payloads. -/
theorem claim_C8_cache_hit (env : Orchestrator.TracedEnv)
    (template : Orchestrator.TemplateInfo)
    (stored : Orchestrator.GenerateResponse)
    (h : env.cacheHit = some stored) :
    (∃ r, Orchestrator.generateTraced env template = (.ok r, [.cacheLookup]) ∧
      r.cached = true ∧
      r.generation_time_ms = env.lookupMs ∧
      r.positions = stored.positions ∧
      r.part_ids = stored.part_ids ∧
      r.part_names = stored.part_names ∧
      r.template_type = stored.template_type ∧
      r.bbox_min = stored.bbox_min ∧
      r.bbox_max = stored.bbox_max ∧
      r.pipeline = stored.pipeline) ∧
    (∀ (mem : List (String × Orchestrator.GenerateResponse))
        (lem hkey : String → String) (text : String),
      Orchestrator.memGet
        (Orchestrator.memSet mem (Orchestrator.cacheKeyOf lem hkey text) stored)
        (Orchestrator.cacheKeyOf lem hkey text) = some stored) := by
  constructor
  · refine ⟨{ stored with cached := true, generation_time_ms := env.lookupMs },
      Orchestrator.generateTraced_hit env template stored h, rfl, rfl, rfl, rfl,
      rfl, rfl, rfl, rfl, rfl⟩
  · intro mem lem hkey text
    simp [Orchestrator.memGet, Orchestrator.memSet]

/-- Witness for C8 at a concrete stored response. -/
theorem claim_C8_cache_hit_witness :
    ∃ r, Orchestrator.generateTraced
      { cacheHit := some
          { positions := "posA", part_ids := "idsA", part_names := ["head"],
            template_type := "quadruped", bbox_min := fun _ => 0,
            bbox_max := fun _ => 0, cached := false, generation_time_ms := 500,
            pipeline := "partcrafter" },
        lookupMs := 2, metricsOn := false, genLimit := 20, timestamps := [],
        now := 0, syncTimedOut := false,
        syncEnv := ⟨false, .ok (), false, .ok [], .ok ()⟩, elapsedMs := 0,
        encPositions := "", encPartIds := "",
        bboxMin := fun _ => 0, bboxMax := fun _ => 0 }
      { template_type := "quadruped", part_names := [] } =
        (.ok r, [.cacheLookup]) ∧
      r.cached = true ∧ r.positions = "posA" ∧ r.part_ids = "idsA" ∧
      r.generation_time_ms = 2 := by
  obtain ⟨⟨r, h1, h2, h3, h4, h5, -⟩, -⟩ :=
    claim_C8_cache_hit
      { cacheHit := some
          { positions := "posA", part_ids := "idsA", part_names := ["head"],
            template_type := "quadruped", bbox_min := fun _ => 0,
            bbox_max := fun _ => 0, cached := false, generation_time_ms := 500,
            pipeline := "partcrafter" },
        lookupMs := 2, metricsOn := false, genLimit := 20, timestamps := [],
        now := 0, syncTimedOut := false,
        syncEnv := ⟨false, .ok (), false, .ok [], .ok ()⟩, elapsedMs := 0,
        encPositions := "", encPartIds := "",
        bboxMin := fun _ => 0, bboxMax := fun _ => 0 }
      { template_type := "quadruped", part_names := [] }
      _ rfl
  exact ⟨r, h1, h2, h4, h5, h3⟩

/-- Claim C3: over every interleaving of two concurrent `get()` calls on
the same uncached key with a durable backend configured: when both calls
have completed and one of them coalesced (took the waiter path), exactly
one durable-store read was performed; a caller on the waiter path never
performs a durable read, and it re-checks memory (`recheck`) only after
the completion signal is set; and on every exit path of the resolver
(success or exception — both run the `finally` block `fin1`/`fin2`) the
completion signal is set and the in-flight registry entry is removed in
the very transition that completes the call. -/
theorem claim_C3_coalescing (c : Coalesce.Cfg) (hc : Coalesce.Reach c) :
    (Coalesce.finished c.pc1 = true → Coalesce.finished c.pc2 = true →
      (c.pc1 = Coalesce.PC.doneW ∨ c.pc2 = Coalesce.PC.doneW) →
      Coalesce.readsOf c = 1) ∧
    (Coalesce.waiterSide c.pc1 = true → c.r1 = false) ∧
    (Coalesce.waiterSide c.pc2 = true → c.r2 = false) ∧
    (c.pc1 = Coalesce.PC.recheck → c.ev = true) ∧
    (c.pc2 = Coalesce.PC.recheck → c.ev = true) ∧
    (∀ c' ∈ Coalesce.nextsAll c,
      (c.pc1 = Coalesce.PC.fin2 → c'.pc1 = Coalesce.PC.doneR →
        c'.ev = true ∧ c'.infl = false) ∧
      (c.pc2 = Coalesce.PC.fin2 → c'.pc2 = Coalesce.PC.doneR →
        c'.ev = true ∧ c'.infl = false)) := by
  have hm := Coalesce.reach_mem hc
  exact (by decide : ∀ x ∈ Coalesce.reachSet, Coalesce.claimProps x) c hm

/-- Witness for C3 at a fully coalesced terminal configuration: task 1
resolved (durable read, promote, finally) while task 2 waited and
re-checked memory; exactly one durable read was performed. -/
theorem claim_C3_coalescing_witness :
    Coalesce.readsOf ⟨.doneR, .doneW, true, true, false, true, false⟩ = 1 := by
  have h1 : Coalesce.Reach ⟨.regCheck, .start, false, false, false, false, false⟩ :=
    Coalesce.Reach.step Coalesce.Reach.init (by decide)
  have h2 : Coalesce.Reach ⟨.reading, .start, false, false, true, false, false⟩ :=
    Coalesce.Reach.step h1 (by decide)
  have h3 : Coalesce.Reach ⟨.reading, .regCheck, false, false, true, false, false⟩ :=
    Coalesce.Reach.step h2 (by decide)
  have h4 : Coalesce.Reach ⟨.reading, .waiting, false, false, true, false, false⟩ :=
    Coalesce.Reach.step h3 (by decide)
  have h5 : Coalesce.Reach ⟨.promote, .waiting, false, false, true, true, false⟩ :=
    Coalesce.Reach.step h4 (by decide)
  have h6 : Coalesce.Reach ⟨.fin1, .waiting, true, false, true, true, false⟩ :=
    Coalesce.Reach.step h5 (by decide)
  have h7 : Coalesce.Reach ⟨.fin2, .waiting, true, true, true, true, false⟩ :=
    Coalesce.Reach.step h6 (by decide)
  have h8 : Coalesce.Reach ⟨.doneR, .waiting, true, true, false, true, false⟩ :=
    Coalesce.Reach.step h7 (by decide)
  have h9 : Coalesce.Reach ⟨.doneR, .recheck, true, true, false, true, false⟩ :=
    Coalesce.Reach.step h8 (by decide)
  have h10 : Coalesce.Reach ⟨.doneR, .doneW, true, true, false, true, false⟩ :=
    Coalesce.Reach.step h9 (by decide)
  exact (claim_C3_coalescing _ h10).1 rfl rfl (Or.inr rfl)

/-- Counterexample to claim C1: the primary model returns only 1 real
part of 6 requested (one mesh with 2 vertices, five degenerate 1-vertex
placeholders), which is below the half-of-requested-parts threshold
(`1 < max(6 * 0.5, 1) = 3`), yet the orchestrator returns a primary
result (`pipeline = "partcrafter"`) instead of proceeding to the
fallback path — the threshold comparison only logs a warning. -/
theorem claim_C1_counterexample :
    ((([⟨2⟩, ⟨1⟩, ⟨1⟩, ⟨1⟩, ⟨1⟩, ⟨1⟩] : List Orchestrator.Mesh).filter
        (fun m => 1 < m.numVertices)).length : ℚ) <
      Orchestrator.halfThreshold 6 ∧
    Orchestrator.generateSync
      ⟨true, .ok (), true, .ok [⟨2⟩, ⟨1⟩, ⟨1⟩, ⟨1⟩, ⟨1⟩, ⟨1⟩], .ok ()⟩
      { template_type := "quadruped",
        part_names := ["head", "body", "front_legs", "back_legs", "tail", "neck"] } =
      .ok (["head"], "partcrafter") := by
  constructor
  · norm_num [Orchestrator.halfThreshold, List.filter]
  · rfl

/-- Claim C1 (amended): with a reference image and the part-mesh model
available, the primary attempt is used iff at least one requested part
decoded into real geometry (a mesh with more than one vertex); the
half-of-requested-parts threshold only gates a warning log.  When zero
parts decode into real geometry, the orchestrator proceeds to the
fallback path, and on fallback success the result's pipeline tag is
`"hunyuan3d_grounded_sam"`, identifying the fallback path. -/
theorem claim_C1_amended_primary_fallback (env : Orchestrator.SyncEnv)
    (template : Orchestrator.TemplateInfo)
    (hs : env.hasSdxl = true) (hso : env.sdxlResult = .ok ())
    (hp : env.hasPartcrafter = true)
    (meshes : List Orchestrator.Mesh)
    (hpr : env.partcrafterResult = .ok meshes) :
    (meshes.filter (fun m => 1 < m.numVertices) ≠ [] →
      Orchestrator.generateSync env template =
        .ok (template.part_names.take
              (meshes.filter (fun m => 1 < m.numVertices)).length,
             "partcrafter")) ∧
    (meshes.filter (fun m => 1 < m.numVertices) = [] →
      env.fallbackResult = .ok () →
      Orchestrator.generateSync env template =
        .ok (template.part_names, "hunyuan3d_grounded_sam")) := by
  unfold Orchestrator.generateSync
  rw [hs, hso, hp, hpr]
  constructor
  · intro hvalid
    simp only [if_true]
    rw [if_neg (by simpa [List.isEmpty_iff] using hvalid)]
  · intro hempty hfb
    simp only [if_true]
    rw [if_pos (by simpa [List.isEmpty_iff] using hempty)]
    unfold Orchestrator.runFallback
    rw [hfb]

/-- Witness for amended C1: all six parts decode as 1-vertex placeholders
and the fallback succeeds, so the pipeline tag identifies the fallback. -/
theorem claim_C1_amended_primary_fallback_witness :
    Orchestrator.generateSync
      ⟨true, .ok (), true, .ok [⟨1⟩, ⟨1⟩, ⟨1⟩, ⟨1⟩, ⟨1⟩, ⟨1⟩], .ok ()⟩
      { template_type := "quadruped",
        part_names := ["head", "body", "front_legs", "back_legs", "tail", "neck"] } =
      .ok (["head", "body", "front_legs", "back_legs", "tail", "neck"],
           "hunyuan3d_grounded_sam") :=
  (claim_C1_amended_primary_fallback _ _ rfl rfl rfl _ rfl).2 (by decide) rfl

/-- Counterexample to claim C2: a generic exception raised by the
text-to-image model (outside the fallback sub-path) is wrapped into the
generic generation-failed error, so `generate()` can also fail with
GenerationFailed — not only RateLimited, Timeout, OutOfMemory, or
ValidationFailed. -/
theorem claim_C2_counterexample :
    (Orchestrator.generateTraced
      { cacheHit := none, lookupMs := 0, metricsOn := false, genLimit := 20,
        timestamps := [], now := 0, syncTimedOut := false,
        syncEnv := ⟨true, .error .generic, false, .ok [], .ok ()⟩,
        elapsedMs := 0, encPositions := "", encPartIds := "",
        bboxMin := fun _ => 0, bboxMax := fun _ => 0 }
      { template_type := "single", part_names := ["object"] }).1 =
      .error .generationFailed ∧
    (∀ l r, Orchestrator.GenError.generationFailed ≠ .rateLimited l r) ∧
    Orchestrator.GenError.generationFailed ≠ .timeout ∧
    Orchestrator.GenError.generationFailed ≠ .oom := by
  refine ⟨rfl, ?_, by decide, by decide⟩
  intro l r
  simp

/-- Claim C2 (amended): `generate()` only ever fails with RateLimited,
Timeout, OutOfMemory, or GenerationFailed (generic exceptions, including
those of the primary path, are wrapped into GenerationFailed); every
non-OOM error raised inside the fallback sub-path is absorbed (logged)
and control falls through to mock degradation, so `generate()` never
fails merely because no pipeline could produce reasonable geometry; a
CUDA OOM raised inside the fallback is re-raised and classified as
OutOfMemory. -/
theorem claim_C2_amended_error_taxonomy (env : Orchestrator.TracedEnv)
    (template : Orchestrator.TemplateInfo) :
    (∀ e, (Orchestrator.generateTraced env template).1 = .error e →
      (∃ l r, e = .rateLimited l r) ∨ e = .timeout ∨ e = .oom ∨
        e = .generationFailed) ∧
    (env.syncEnv.hasSdxl = true → env.syncEnv.sdxlResult = .ok () →
      env.syncEnv.hasPartcrafter = true →
      ∀ meshes, env.syncEnv.partcrafterResult = .ok meshes →
        meshes.filter (fun m => 1 < m.numVertices) = [] →
        env.syncEnv.fallbackResult = .error .generic →
        Orchestrator.generateSync env.syncEnv template =
          .ok (template.part_names, "sdxl_turbo+mock")) ∧
    (env.syncEnv.hasSdxl = true → env.syncEnv.sdxlResult = .ok () →
      env.syncEnv.hasPartcrafter = true →
      ∀ meshes, env.syncEnv.partcrafterResult = .ok meshes →
        meshes.filter (fun m => 1 < m.numVertices) = [] →
        env.syncEnv.fallbackResult = .error .oom →
        Orchestrator.generateSync env.syncEnv template = .error .oom) := by
  refine ⟨?_, ?_, ?_⟩
  · intro e _
    cases e with
    | rateLimited l r => exact Or.inl ⟨l, r, rfl⟩
    | timeout => exact Or.inr (Or.inl rfl)
    | oom => exact Or.inr (Or.inr (Or.inl rfl))
    | generationFailed => exact Or.inr (Or.inr (Or.inr rfl))
  · intro hs hso hp meshes hpr hempty hfb
    unfold Orchestrator.generateSync
    rw [hs, hso, hp, hpr]
    simp only [if_true]
    rw [if_pos (by simpa [List.isEmpty_iff] using hempty)]
    unfold Orchestrator.runFallback
    rw [hfb]
  · intro hs hso hp meshes hpr hempty hfb
    unfold Orchestrator.generateSync
    rw [hs, hso, hp, hpr]
    simp only [if_true]
    rw [if_pos (by simpa [List.isEmpty_iff] using hempty)]
    unfold Orchestrator.runFallback
    rw [hfb]

/-- Witness for amended C2: primary decodes nothing and the fallback
raises a generic error; the error is absorbed and the mock result is
returned successfully. -/
theorem claim_C2_amended_error_taxonomy_witness :
    Orchestrator.generateSync
      ⟨true, .ok (), true, .ok [⟨1⟩], .error .generic⟩
      { template_type := "single", part_names := ["object"] } =
      .ok (["object"], "sdxl_turbo+mock") :=
  (claim_C2_amended_error_taxonomy
    { cacheHit := none, lookupMs := 0, metricsOn := false, genLimit := 20,
      timestamps := [], now := 0, syncTimedOut := false,
      syncEnv := ⟨true, .ok (), true, .ok [⟨1⟩], .error .generic⟩,
      elapsedMs := 0, encPositions := "", encPartIds := "",
      bboxMin := fun _ => 0, bboxMax := fun _ => 0 }
    { template_type := "single", part_names := ["object"] }).2.1
    rfl rfl rfl _ rfl (by decide) rfl

/-- Counterexample to claim C5: for the non-whitespace input `"!!!"` the
token list is empty, and `normalize_key` returns the empty string — not
the original trimmed input `"!!!"` (the fallback returns the lowercased,
trimmed, punctuation-stripped intermediate text, and that can be empty).
The lemmatizer is irrelevant here (no tokens survive), so the identity
lemmatizer is used. -/
theorem claim_C5_counterexample :
    CacheKey.normalize_key (fun w => w) "!!!" = "" ∧
    CacheKey.stripChars ("!!!".toList) = "!!!".toList ∧
    ("!!!" : String) ≠ "" := by
  refine ⟨by decide, by decide, by decide⟩

/-- Claim C5 (amended): for every input whose normalization yields an
empty token list, `normalize_key` returns the lowercased, trimmed,
punctuation-stripped intermediate text (not the original trimmed text,
and possibly empty — e.g. for punctuation-only input); when the input
consists only of lowercase word/whitespace characters, that intermediate
text coincides with the original trimmed text, recovering the claim in
that case. -/
theorem claim_C5_amended_empty_fallback (lem : String → String) (text : String)
    (hempty :
      ((((List.splitOnP Char.isWhitespace
          ((CacheKey.stripChars (text.toList.map Char.toLower)).filter
            (fun c => CacheKey.isWordChar c || c.isWhitespace))).filter
              (fun w => w ≠ [])).map (fun w => String.mk w)).filter
                (fun w => w ∉ CacheKey.articles)) = []) :
    CacheKey.normalize_key lem text =
      String.mk ((CacheKey.stripChars (text.toList.map Char.toLower)).filter
        (fun c => CacheKey.isWordChar c || c.isWhitespace)) ∧
    ((∀ c ∈ text.toList,
        Char.toLower c = c ∧ (CacheKey.isWordChar c || c.isWhitespace) = true) →
      CacheKey.normalize_key lem text = String.mk (CacheKey.stripChars text.toList)) := by
  have hmain : CacheKey.normalize_key lem text =
      String.mk ((CacheKey.stripChars (text.toList.map Char.toLower)).filter
        (fun c => CacheKey.isWordChar c || c.isWhitespace)) := by
    simp only [CacheKey.normalize_key]
    rw [hempty]
    simp
  refine ⟨hmain, fun hall => ?_⟩
  rw [hmain]
  have h1 : text.toList.map Char.toLower = text.toList := by
    conv_rhs => rw [← List.map_id text.toList]
    exact List.map_congr_left (fun c hc => (hall c hc).1)
  rw [h1]
  congr 1
  apply List.filter_eq_self.mpr
  intro c hc
  have hcmem : c ∈ text.toList := by
    unfold CacheKey.stripChars at hc
    rw [List.mem_reverse] at hc
    have hc2 := (List.dropWhile_sublist _).mem hc
    rw [List.mem_reverse] at hc2
    exact (List.dropWhile_sublist _).mem hc2
  exact (hall c hcmem).2

/-- Witness for amended C5: the article-only input `"the"` empties the
token list and is returned unchanged (it is already lowercase,
punctuation-free and trimmed). -/
theorem claim_C5_amended_empty_fallback_witness :
    CacheKey.normalize_key (fun w => w) "the" =
      String.mk (CacheKey.stripChars ("the".toList)) :=
  (claim_C5_amended_empty_fallback (fun w => w) "the" (by decide)).2 (by decide)

/-- Counterexample to claim C7: three part meshes of equal (positive)
area under a 2-point budget — the minimum-1 rule allocates one point to
each mesh, the clamped reconciliation cannot remove the excess from the
largest part (it keeps at least 1 point), and 3 points are returned
instead of `total_points = 2`. -/
theorem claim_C7_counterexample :
    PointSampler.sample_from_part_meshes [1, 1, 1] 2 = .ok [0, 1, 2] ∧
    ([0, 1, 2] : List ℕ).length ≠ 2 := by
  constructor
  · have halloc : PointSampler.allocate_points [1, 1, 1] 2 = [1, 1, 1] := by
      norm_num [PointSampler.allocate_points, PointSampler.allocate_pos,
        PointSampler.pyInt, PointSampler.argmaxIdx, List.max?]
    unfold PointSampler.sample_from_part_meshes
    rw [if_neg (by decide), halloc]
    rfl
  · decide

/-- Claim C7 (amended): an empty mesh list raises an error.  Otherwise
the returned `part_ids` list is determined by the per-part allocation:
when the total surface area is not positive the budget is split evenly
(per-mesh quotient with the remainder on the last part) and exactly
`total_points` points are returned; when the total area is positive,
every mesh is allocated at least 1 point, and — provided the budget is
at least `n * (n + 1)` for `n` meshes, so the largest part can absorb
the rounding excess (e.g. up to 44 meshes under the default 2048-point
budget) — exactly `total_points` points are returned; the returned
count can exceed `total_points` otherwise (see the counterexample).
Under the 100:1 area ratio with a 2048-point budget, the larger part
receives 2028 points and the smaller 20, more than ten times fewer. -/
theorem claim_C7_amended_allocation (areas : List ℚ) (total_points : ℕ)
    (hpos : ∀ a ∈ areas, 0 ≤ a) :
    (areas = [] →
      PointSampler.sample_from_part_meshes areas total_points =
        .error "part_meshes must not be empty") ∧
    (areas ≠ [] →
      ∃ ids, PointSampler.sample_from_part_meshes areas total_points = .ok ids ∧
        (areas.sum ≤ 0 →
          PointSampler.allocate_points areas total_points =
            (PointSampler.allocate_zero areas.length total_points).map Int.ofNat ∧
          ids.length = total_points) ∧
        (0 < areas.sum →
          (∀ x ∈ PointSampler.allocate_points areas total_points, 1 ≤ x) ∧
          (areas.length * (areas.length + 1) ≤ total_points →
            ids.length = total_points))) ∧
    (∀ ids, PointSampler.sample_from_part_meshes [100, 1] 2048 = .ok ids →
      ids.count 0 = 2028 ∧ ids.count 1 = 20 ∧ 10 * ids.count 1 < ids.count 0) := by
  refine ⟨?_, ?_, ?_⟩
  · intro he
    unfold PointSampler.sample_from_part_meshes
    rw [if_pos he]
  · intro hne
    have hs : PointSampler.sample_from_part_meshes areas total_points =
        .ok (((PointSampler.allocate_points areas total_points).enum).flatMap
          (fun pr => List.replicate pr.2.toNat pr.1)) := by
      unfold PointSampler.sample_from_part_meshes
      rw [if_neg hne]
    refine ⟨_, hs, ?_, ?_⟩
    · intro hz
      have hb : PointSampler.allocate_points areas total_points =
          (PointSampler.allocate_zero areas.length total_points).map Int.ofNat := by
        unfold PointSampler.allocate_points
        rw [if_pos hz]
      refine ⟨hb, ?_⟩
      rw [PointSampler.flatten_ids_length, hb, List.map_map]
      have hcomp : Int.toNat ∘ Int.ofNat = id := by
        funext k
        rfl
      rw [hcomp, List.map_id]
      exact PointSampler.allocate_zero_sum _ _ (List.length_pos.mpr hne)
    · intro hp
      have hb : PointSampler.allocate_points areas total_points =
          PointSampler.allocate_pos areas total_points := by
        unfold PointSampler.allocate_points
        rw [if_neg (by linarith)]
      constructor
      · rw [hb]
        exact PointSampler.allocate_pos_entries areas total_points hne
      · intro hT
        rw [PointSampler.flatten_ids_length, hb]
        have hsum := PointSampler.allocate_pos_sum areas total_points hne hpos hp hT
        have hnn : ∀ x ∈ PointSampler.allocate_pos areas total_points, (0:ℤ) ≤ x :=
          fun x hx => le_trans (by norm_num)
            (PointSampler.allocate_pos_entries areas total_points hne x hx)
        have hcast := PointSampler.sum_toNat_of_nonneg _ hnn
        rw [hsum] at hcast
        exact_mod_cast hcast
  · intro ids hok
    have halloc : PointSampler.allocate_points [100, 1] 2048 = [2028, 20] := by
      norm_num [PointSampler.allocate_points, PointSampler.allocate_pos,
        PointSampler.pyInt, PointSampler.argmaxIdx, List.max?]
    have hs : PointSampler.sample_from_part_meshes [100, 1] 2048 =
        .ok (List.replicate 2028 0 ++ List.replicate 20 1) := by
      unfold PointSampler.sample_from_part_meshes
      rw [if_neg (by decide), halloc]
      rfl
    rw [hs] at hok
    obtain rfl : List.replicate 2028 0 ++ List.replicate 20 1 = ids :=
      Except.ok.inj hok
    have hca : (List.replicate 2028 (0 : ℕ) ++ List.replicate 20 1).count 0 = 2028 := by
      rw [List.count_append, List.count_replicate, List.count_replicate]
      norm_num
    have hcb : (List.replicate 2028 (0 : ℕ) ++ List.replicate 20 1).count 1 = 20 := by
      rw [List.count_append, List.count_replicate, List.count_replicate]
      norm_num
    rw [hca, hcb]
    refine ⟨rfl, rfl, by norm_num⟩

/-- Witness for amended C7 at the 100:1 ratio input. -/
theorem claim_C7_amended_allocation_witness :
    ∃ ids, PointSampler.sample_from_part_meshes [100, 1] 2048 = .ok ids ∧
      ids.length = 2048 ∧ 10 * ids.count 1 < ids.count 0 := by
  obtain ⟨-, h2, h3⟩ :=
    claim_C7_amended_allocation [100, 1] 2048 (by norm_num)
  obtain ⟨ids, hok, -, hposc⟩ := h2 (by simp)
  obtain ⟨-, hlen⟩ := hposc (by norm_num)
  obtain ⟨hc0, hc1, hr⟩ := h3 ids hok
  exact ⟨ids, hok, hlen (by norm_num), hr⟩

/-- Claim C10: for every input, every entry of the array returned by
`map_masks_to_faces` is a nonnegative part index — no face is left with
the unlabeled marker `-1`; with zero input mask triples all faces get
index 0; and when no mask covers any face in range (so no face receives
a direct label and there is nothing for the nearest-neighbour fill to
search against) all faces also get index 0. -/
theorem claim_C10_no_unlabeled (views : List (List (String × List Bool) × List Int))
    (centroids : List PointSampler.Vec3) (partNames : Option (List String)) :
    (∀ x ∈ MaskToFaces.map_masks_to_faces views centroids partNames, 0 ≤ x) ∧
    (MaskToFaces.flattenEntries views = [] →
      MaskToFaces.map_masks_to_faces views centroids partNames =
        List.replicate centroids.length 0) ∧
    ((∀ e ∈ MaskToFaces.flattenEntries views,
        ∀ g ∈ MaskToFaces.coveredFaces e, ¬(g < centroids.length)) →
      MaskToFaces.map_masks_to_faces views centroids partNames =
        List.replicate centroids.length 0) := by
  set n := centroids.length with hn
  set entries := MaskToFaces.flattenEntries views with hent
  set seen := MaskToFaces.firstSeen (entries.map (fun e => e.part)) with hseen
  set p2i : String → ℕ := fun s => seen.indexOf s with hp2i
  set sortedE := List.insertionSort
    (fun a b : MaskToFaces.MaskEntry => a.area ≤ b.area) entries with hsortE
  set stR := MaskToFaces.runEntries n p2i sortedE with hstR
  set labels1 := (match partNames with
    | some pns =>
      if pns ≠ [] then
        MaskToFaces.applySymmetric centroids n seen p2i pns stR.labels
      else stR.labels
    | none => stR.labels) with hlabels1
  have hout : MaskToFaces.map_masks_to_faces views centroids partNames =
      if entries = [] then List.replicate n 0
      else (List.range n).map (MaskToFaces.fillUnlabeled centroids n labels1) := rfl
  have hinv1 : ∀ g, labels1 g = -1 ∨ 0 ≤ labels1 g := by
    intro g
    rw [hlabels1]
    cases partNames with
    | none => exact MaskToFaces.runEntries_labels_inv sortedE n p2i g
    | some pns =>
      dsimp only
      by_cases hp : pns ≠ []
      · rw [if_pos hp]
        exact MaskToFaces.sym_inv centroids n seen p2i pns stR.labels
          (MaskToFaces.runEntries_labels_inv sortedE n p2i) g
      · rw [if_neg hp]
        exact MaskToFaces.runEntries_labels_inv sortedE n p2i g
  refine ⟨?_, ?_, ?_⟩
  · intro x hx
    rw [hout] at hx
    by_cases he : entries = []
    · rw [if_pos he] at hx
      rw [List.eq_of_mem_replicate hx]
    · rw [if_neg he] at hx
      obtain ⟨f, hf, rfl⟩ := List.mem_map.mp hx
      exact MaskToFaces.fill_nonneg centroids n labels1 hinv1 f (List.mem_range.mp hf)
  · intro he
    rw [hout, if_pos he]
  · intro hnc
    by_cases he : entries = []
    · rw [hout, if_pos he]
    · rw [hout, if_neg he]
      have hall : ∀ f, stR.labels f = -1 := by
        intro f
        apply MaskToFaces.runEntries_no_cover
        intro e hemem hcov
        have hee : e ∈ entries :=
          (List.perm_insertionSort _ entries).mem_iff.mp hemem
        exact (hnc e hee f hcov.1) hcov.2
      have hall1 : ∀ f, labels1 f = -1 := by
        intro f
        rw [hlabels1]
        cases partNames with
        | none => exact hall f
        | some pns =>
          dsimp only
          by_cases hp : pns ≠ []
          · rw [if_pos hp]
            rw [MaskToFaces.sym_noop centroids n seen p2i pns stR.labels hall]
            exact hall f
          · rw [if_neg hp]
            exact hall f
      rw [MaskToFaces.fill_all_neg centroids n labels1 hall1]
      exact MaskToFaces.map_range_zero n

/-- Witness for C10: zero input triples and a single face yield the
all-zero label array. -/
theorem claim_C10_no_unlabeled_witness :
    MaskToFaces.map_masks_to_faces [] [(fun _ => 0 : PointSampler.Vec3)] none =
      List.replicate 1 0 :=
  (claim_C10_no_unlabeled [] [(fun _ => 0 : PointSampler.Vec3)] none).2.1 rfl

/-- Claim C6: for every face covered by an entry that is the unique
strict-area minimum among all entries covering it, the face's final label
in `map_masks_to_faces` is that entry's part index: triples are processed
smallest-area first and a label is overwritten only on strictly smaller
area, so the smallest-area covering mask wins. -/
theorem claim_C6_smallest_mask_wins
    (views : List (List (String × List Bool) × List Int))
    (centroids : List PointSampler.Vec3) (partNames : Option (List String))
    (e : MaskToFaces.MaskEntry) (f : ℕ)
    (he : e ∈ MaskToFaces.flattenEntries views)
    (hf : f ∈ MaskToFaces.coveredFaces e)
    (hfn : f < centroids.length)
    (huniq : ∀ x ∈ MaskToFaces.flattenEntries views,
      f ∈ MaskToFaces.coveredFaces x → x = e ∨ e.area < x.area) :
    (MaskToFaces.map_masks_to_faces views centroids partNames).getD f 0 =
      ((MaskToFaces.firstSeen
          ((MaskToFaces.flattenEntries views).map
            (fun x => x.part))).indexOf e.part : ℤ) := by
  set entries := MaskToFaces.flattenEntries views with hent
  set seen := MaskToFaces.firstSeen (entries.map (fun x => x.part)) with hseen
  set p2i : String → ℕ := fun s => seen.indexOf s with hp2i
  set sortedE := List.insertionSort
    (fun a b : MaskToFaces.MaskEntry => a.area ≤ b.area) entries with hsortE
  set stR := MaskToFaces.runEntries centroids.length p2i sortedE with hstR
  have hne : entries ≠ [] := by
    intro h
    rw [h] at he
    cases he
  have hperm := List.perm_insertionSort
    (fun a b : MaskToFaces.MaskEntry => a.area ≤ b.area) entries
  have hsorted : sortedE.Pairwise (fun a b => a.area ≤ b.area) := by
    haveI : IsTotal MaskToFaces.MaskEntry (fun a b => a.area ≤ b.area) :=
      ⟨fun a b => Nat.le_total _ _⟩
    haveI : IsTrans MaskToFaces.MaskEntry (fun a b => a.area ≤ b.area) :=
      ⟨fun a b c => Nat.le_trans⟩
    exact List.sorted_insertionSort _ entries
  have hmemF : e ∈ sortedE.filter
      (fun x => decide (f ∈ MaskToFaces.coveredFaces x) &&
        decide (f < centroids.length)) := by
    refine List.mem_filter.mpr ⟨hperm.mem_iff.mpr he, ?_⟩
    simp [hf, hfn]
  have hsortF : (sortedE.filter
      (fun x => decide (f ∈ MaskToFaces.coveredFaces x) &&
        decide (f < centroids.length))).Pairwise
      (fun a b => a.area ≤ b.area) := hsorted.filter _
  have hminF : ∀ x ∈ sortedE.filter
      (fun x => decide (f ∈ MaskToFaces.coveredFaces x) &&
        decide (f < centroids.length)), x = e ∨ e.area < x.area := by
    intro x hx
    have hx1 : x ∈ entries := hperm.mem_iff.mp (List.mem_of_mem_filter hx)
    have hx2 := (List.mem_filter.mp hx).2
    simp only [Bool.and_eq_true, decide_eq_true_eq] at hx2
    exact huniq x hx1 hx2.1
  have hfold := MaskToFaces.foldl_faceStep_unique_min p2i
    (sortedE.filter
      (fun x => decide (f ∈ MaskToFaces.coveredFaces x) &&
        decide (f < centroids.length)))
    e hsortF hmemF hminF
  have hlab : stR.labels f = ((p2i e.part : ℕ) : ℤ) := by
    have h1 := congrArg Prod.fst
      (MaskToFaces.runEntries_at sortedE centroids.length p2i f)
    dsimp only at h1
    rw [hstR, h1, hfold]
  have hne1 : stR.labels f ≠ -1 := by
    rw [hlab]
    have := Int.natCast_nonneg (p2i e.part)
    omega
  cases partNames with
  | none =>
    have hout : MaskToFaces.map_masks_to_faces views centroids none =
        if entries = [] then List.replicate centroids.length 0
        else (List.range centroids.length).map
          (MaskToFaces.fillUnlabeled centroids centroids.length
            stR.labels) := rfl
    rw [hout, if_neg hne, MaskToFaces.out_getD centroids stR.labels f hfn]
    rw [MaskToFaces.fill_preserves centroids centroids.length stR.labels f hfn hne1]
    rw [hlab, hp2i]
  | some pns =>
    have hout : MaskToFaces.map_masks_to_faces views centroids (some pns) =
        if entries = [] then List.replicate centroids.length 0
        else (List.range centroids.length).map
          (MaskToFaces.fillUnlabeled centroids centroids.length
            (if pns ≠ [] then
              MaskToFaces.applySymmetric centroids centroids.length seen p2i
                pns stR.labels
            else stR.labels)) := rfl
    rw [hout, if_neg hne, MaskToFaces.out_getD centroids _ f hfn]
    by_cases hp : pns ≠ []
    · rw [if_pos hp]
      have hsym : MaskToFaces.applySymmetric centroids centroids.length seen
          p2i pns stR.labels f = stR.labels f :=
        MaskToFaces.sym_preserves centroids centroids.length seen p2i pns
          stR.labels f hne1
      have hne2 : MaskToFaces.applySymmetric centroids centroids.length seen
          p2i pns stR.labels f ≠ -1 := by
        rw [hsym]
        exact hne1
      rw [MaskToFaces.fill_preserves centroids centroids.length _ f hfn hne2]
      rw [hsym, hlab, hp2i]
    · rw [if_neg hp]
      rw [MaskToFaces.fill_preserves centroids centroids.length stR.labels f hfn hne1]
      rw [hlab, hp2i]

/-- Witness for C6: two masks over a single face, of pixel areas 2 and 1;
the smaller mask's part ("small", index 1 in first-seen order) labels the
face. -/
theorem claim_C6_smallest_mask_wins_witness :
    (MaskToFaces.map_masks_to_faces
        [([("big", [true, true]), ("small", [true, false])], [0, 0])]
        [(fun _ => 0 : PointSampler.Vec3)] none).getD 0 0 = 1 := by
  have h := claim_C6_smallest_mask_wins
    [([("big", [true, true]), ("small", [true, false])], [0, 0])]
    [(fun _ => 0 : PointSampler.Vec3)] none
    ⟨"small", [true, false], [0, 0]⟩ 0
    (by decide) (by decide) (by decide) (by decide)
  rw [h]
  decide
